import Mathlib

/-!
Verification of the RPG sandbox core (world generation, pathfinding,
entities, events) against its natural-language specification.

The Python source is shallowly embedded:
* Python floats are represented by `ℚ`; transcendental float functions
  (`math.sin`, `math.cos`, `math.hypot`, vector normalisation) and
  pseudo-random draws (`random.Random`, module-level `random`) are
  abstracted as oracle functions supplied as parameters; all theorems
  are quantified over these oracles, so they hold in particular for the
  concrete floating-point implementations.
* Mutable objects become explicit state passing; Python `dict`s become
  insertion-ordered association lists; Python `set`s become duplicate-free
  lists whose order is irrelevant to the properties proved.
-/

set_option maxHeartbeats 1000000

namespace RPG

/-- Python bitwise complement `~a` on unbounded integers. -/
def pyNot (a : ℤ) : ℤ := -a - 1

/-- Python bitwise xor `a ^ b` on unbounded (two's complement) integers,
as used by `World._cell_rng`. -/
def intXor (a b : ℤ) : ℤ :=
  if 0 ≤ a then
    if 0 ≤ b then Int.ofNat (a.toNat ^^^ b.toNat)
    else pyNot (Int.ofNat (a.toNat ^^^ (pyNot b).toNat))
  else
    if 0 ≤ b then pyNot (Int.ofNat ((pyNot a).toNat ^^^ b.toNat))
    else Int.ofNat ((pyNot a).toNat ^^^ (pyNot b).toNat)

/-- Lookup in an insertion-ordered association list (Python `dict` access). -/
def alookup {α β : Type} [DecidableEq α] : List (α × β) → α → Option β
  | [], _ => none
  | (k, v) :: rest, a => if k = a then some v else alookup rest a

/-- Assignment `d[a] = b` on an insertion-ordered association list: replaces
the value in place if the key exists, otherwise appends (Python 3.7 dict
insertion-order semantics). -/
def aset {α β : Type} [DecidableEq α] : List (α × β) → α → β → List (α × β)
  | [], a, b => [(a, b)]
  | (k, v) :: rest, a, b =>
    if k = a then (k, b) :: rest else (k, v) :: aset rest a b

/-- Removal `d.pop(a, None)` on an association list. -/
def aremove {α β : Type} [DecidableEq α] : List (α × β) → α → List (α × β)
  | [], _ => []
  | (k, v) :: rest, a => if k = a then rest else (k, v) :: aremove rest a

/-- Element insertion into a Python `set` modelled as a duplicate-free list. -/
def setAdd {α : Type} [DecidableEq α] (l : List α) (a : α) : List α :=
  if a ∈ l then l else l ++ [a]

/-- Numeric oracle for `World`.  `noise x y freq` stands for the
floating-point `World._noise(x, y, freq)` (a fixed deterministic function
once the seed is fixed; the seed offsets inside `_noise` are absorbed into
the oracle).  `cellRand v` stands for the first `random()` draw of
`random.Random(v)`, the per-cell generator built by `World._cell_rng`. -/
structure NoiseCfg where
  noise : ℤ → ℤ → ℚ → ℚ
  cellRand : ℤ → ℚ

/-- Seed value handed to `random.Random` by `World._cell_rng`:
`(x * 73856093) ^ (y * 19349663) ^ (seed * 83492791)`. -/
def cellRngSeed (seed x y : ℤ) : ℤ :=
  intXor (intXor (x * 73856093) (y * 19349663)) (seed * 83492791)

/-- The solid tile kinds of `World.is_solid_tile`. -/
def solidTiles : List String := ["water", "stone"]

/-- Embedding of `World.biome_at`.  The float comparisons
`math.hypot(tx-200, ty-200) < 50` (etc.) are expressed as exact
squared-integer comparisons, which agree with the floating-point source on
all integer inputs. -/
def biomeAt (cfg : NoiseCfg) (tx ty : ℤ) : String :=
  let n := cfg.noise tx ty (6 / 100)
  let m := cfg.noise (tx + 999) (ty - 431) (8 / 100)
  let castleDistSq := (tx - 200) ^ 2 + (ty - 200) ^ 2
  let villageDistSq := (tx - 400) ^ 2 + (ty - 300) ^ 2
  if castleDistSq < 2500 then
    (if castleDistSq < 900 then "castle_floor" else "castle_wall")
  else if villageDistSq < 6400 then
    (if villageDistSq < 3600 then "village_house" else "village_road")
  else if n < -(22 / 100) then "mountains"
  else if n < -(5 / 100) then "forest"
  else if n < 18 / 100 then "plains"
  else if m > 25 / 100 then "village_ruins"
  else "dungeon"

/-- Tile kind and optional prop produced for one cell by the body of the
double loop in `World.generate_chunk`. -/
def cellTileProp (cfg : NoiseCfg) (seed tx ty : ℤ) : String × Option String :=
  let biome := biomeAt cfg tx ty
  let r := cfg.cellRand (cellRngSeed seed tx ty)
  let val := cfg.noise (tx * 2) (ty * 2) (1 / 10)
  let base : String × Option String :=
    if biome = "castle_floor" then
      ("castle_floor", if r < 2 / 100 then some "castle_tower" else none)
    else if biome = "castle_wall" then
      ("castle_wall", if r < 1 / 10 then some "castle_wall_prop" else none)
    else if biome = "village_house" then
      ("village_house", if r < 15 / 100 then some "house" else none)
    else if biome = "village_road" then ("village_road", none)
    else if biome = "plains" then
      ((if val > -(1 / 10) then "grass" else "dirt"), none)
    else if biome = "forest" then
      ((if val > -(2 / 10) then "grass" else "dirt"),
        if r < 8 / 100 then some "tree" else none)
    else if biome = "mountains" then
      ((if val > -(35 / 100) then "stone" else "dirt"),
        if r < 5 / 100 then some "rock" else none)
    else if biome = "dungeon" then
      ((if val > -(3 / 10) then "dungeon" else "stone"),
        if r < 25 / 1000 then some "obelisk" else none)
    else
      ((if val > -(2 / 10) then "ruins" else "dirt"),
        if r < 4 / 100 then some "pillar" else none)
  let tile := if cfg.noise (tx - 350) (ty + 177) (12 / 100) > 45 / 100
    then "water" else base.1
  (tile, base.2)

/-- A generated chunk: a 32×32 tile grid plus a prop list, as in `Chunk`. -/
structure Chunk where
  tiles : List (List String)
  props : List (String × ℤ × ℤ)
deriving DecidableEq

/-- Local cell indices `range(CHUNK_SIZE)` as integers. -/
def chunkIdx : List ℤ := (List.range 32).map (fun i => (i : ℤ))

/-- Embedding of `World.generate_chunk`: rasterizes the chunk cell by cell
(row-major, matching the source's loop order for the prop list). -/
def generateChunk (cfg : NoiseCfg) (seed cx cy : ℤ) : Chunk :=
  { tiles := chunkIdx.map (fun ly => chunkIdx.map (fun lx =>
      (cellTileProp cfg seed (cx * 32 + lx) (cy * 32 + ly)).1))
    props := chunkIdx.flatMap (fun ly => chunkIdx.flatMap (fun lx =>
      ((cellTileProp cfg seed (cx * 32 + lx) (cy * 32 + ly)).2.map
        (fun p => (p, cx * 32 + lx, cy * 32 + ly))).toList)) }

/-- The mutable state of `World`: seed/noise configuration, chunk cache,
fog-of-war discovery set, player block overrides, clock and weather. -/
structure World where
  cfg : NoiseCfg
  seed : ℤ
  chunks : List ((ℤ × ℤ) × Chunk)
  discovered : List (ℤ × ℤ)
  playerBlocks : List ((ℤ × ℤ) × String)
  timeOfDay : ℚ
  weather : String

/-- Embedding of `World.__init__`. -/
def World.init (cfg : NoiseCfg) (seed : ℤ) : World :=
  { cfg := cfg, seed := seed, chunks := [], discovered := [],
    playerBlocks := [], timeOfDay := 8, weather := "clear" }

/-- Embedding of `World.get_chunk`: returns the cached chunk, generating and
caching it on a miss. -/
def World.getChunk (w : World) (cx cy : ℤ) : Chunk × World :=
  match alookup w.chunks (cx, cy) with
  | some c => (c, w)
  | none =>
    let c := generateChunk w.cfg w.seed cx cy
    (c, { w with chunks := aset w.chunks (cx, cy) c })

/-- Embedding of `World.get_tile` (`tx // 32`, `tx % 32` are Python floor
division and nonnegative remainder).  The `getD` defaults are unreachable:
a generated chunk always has the indexed 32×32 entry. -/
def World.getTile (w : World) (tx ty : ℤ) : String × World :=
  let cx := Int.fdiv tx 32
  let cy := Int.fdiv ty 32
  let lx := tx % 32
  let ly := ty % 32
  let cw := w.getChunk cx cy
  (((cw.1.tiles.getD ly.toNat []).getD lx.toNat ""), cw.2)

/-- Embedding of `World.ensure_chunks_around` (radius 2 in chunk units);
`int(world_x // (TILE_SIZE * CHUNK_SIZE))` is an exact floor on `ℚ`. -/
def World.ensureChunksAround (w : World) (worldX worldY : ℚ) : World :=
  let cx := ⌊worldX / 1024⌋
  let cy := ⌊worldY / 1024⌋
  (List.range 5).foldl (fun w1 oy =>
    (List.range 5).foldl (fun w2 ox =>
      (w2.getChunk (cx + ox - 2) (cy + oy - 2)).2) w1) w

/-- Embedding of `World.is_solid_tile`: a player block override decides
solidity by `kind == "wall"`; otherwise the generated tile kind is looked
up in the solid set. -/
def World.isSolidTile (w : World) (tx ty : ℤ) : Bool × World :=
  match alookup w.playerBlocks (tx, ty) with
  | some k => (k == "wall", w)
  | none =>
    let tw := w.getTile tx ty
    (solidTiles.contains tw.1, tw.2)

/-- Embedding of `World.place_player_block`. -/
def World.placePlayerBlock (w : World) (tx ty : ℤ) (blockType : String) : World :=
  { w with playerBlocks := aset w.playerBlocks (tx, ty) blockType }

/-- Embedding of `World.remove_player_block`. -/
def World.removePlayerBlock (w : World) (tx ty : ℤ) : World :=
  { w with playerBlocks := aremove w.playerBlocks (tx, ty) }

/-- The persisted world snapshot of `World.to_dict`.  The `"x,y"`
comma-joined decimal string codec for coordinate keys is modelled as the
identity on integer pairs (the codec is injective and its decode inverts
its encode in the source). -/
structure WorldDict where
  seed : ℤ
  timeOfDay : ℚ
  weather : String
  playerBlocks : List ((ℤ × ℤ) × String)
  discovered : List (ℤ × ℤ)

/-- Embedding of `World.to_dict`: full player-block map, discovered set
truncated to the first 8000 enumerated coordinates. -/
def World.toDict (w : World) : WorldDict :=
  { seed := w.seed, timeOfDay := w.timeOfDay, weather := w.weather,
    playerBlocks := w.playerBlocks,
    discovered := w.discovered.take 8000 }

/-- Embedding of `World.load_dict`: rebuilds the player-block dict and the
discovered set element by element. -/
def World.loadDict (w : World) (d : WorldDict) : World :=
  { w with
    seed := d.seed, timeOfDay := d.timeOfDay, weather := d.weather,
    playerBlocks := d.playerBlocks,
    discovered := d.discovered.foldl setAdd [] }

/-- States of `World` reachable from a fresh world by chunk-generating and
block-editing operations, in any order: the universe over which
determinism (claim C1) is stated. -/
inductive Reaches (cfg : NoiseCfg) (seed : ℤ) : World → Prop
  | init : Reaches cfg seed (World.init cfg seed)
  | getChunk (w : World) (cx cy : ℤ) :
      Reaches cfg seed w → Reaches cfg seed (w.getChunk cx cy).2
  | getTile (w : World) (tx ty : ℤ) :
      Reaches cfg seed w → Reaches cfg seed (w.getTile tx ty).2
  | ensure (w : World) (x y : ℚ) :
      Reaches cfg seed w → Reaches cfg seed (w.ensureChunksAround x y)
  | place (w : World) (tx ty : ℤ) (k : String) :
      Reaches cfg seed w → Reaches cfg seed (w.placePlayerBlock tx ty k)
  | remove (w : World) (tx ty : ℤ) :
      Reaches cfg seed w → Reaches cfg seed (w.removePlayerBlock tx ty)

/-! ### Pathfinding: embedding of `astar_path` (src/entities.py) -/

/-- Manhattan heuristic `h` of `astar_path`. -/
def manhattan (a b : ℤ × ℤ) : ℕ := (a.1 - b.1).natAbs + (a.2 - b.2).natAbs

/-- The four neighbours probed by `astar_path`, in source order. -/
def neighbors (c : ℤ × ℤ) : List (ℤ × ℤ) :=
  [(c.1 + 1, c.2), (c.1 - 1, c.2), (c.1, c.2 + 1), (c.1, c.2 - 1)]

/-- Strict lexicographic comparison of heap entries `(f, (x, y))`, exactly
Python's tuple `<` used by `heapq`. -/
def eLt (a b : ℕ × ℤ × ℤ) : Bool :=
  decide (a.1 < b.1) ||
    (decide (a.1 = b.1) &&
      (decide (a.2.1 < b.2.1) ||
        (decide (a.2.1 = b.2.1) && decide (a.2.2 < b.2.2))))

/-- Pop of the least heap entry.  `heapq` pops the least element in the
total tuple order; the surrounding list order is otherwise irrelevant, so
the heap is modelled as a plain list and the pop as a scan for the least
entry (first occurrence) followed by its removal. -/
def popMin (l : List (ℕ × ℤ × ℤ)) :
    Option ((ℕ × ℤ × ℤ) × List (ℕ × ℤ × ℤ)) :=
  match l with
  | [] => none
  | e :: rest =>
    let m := rest.foldl (fun m x => if eLt x m then x else m) e
    some (m, l.erase m)

/-- The mutable search state of `astar_path`: the open heap, the
predecessor map `came_from` and the cost map `g_score`. -/
structure AState where
  openSet : List (ℕ × ℤ × ℤ)
  cameFrom : ℤ × ℤ → Option (ℤ × ℤ)
  gScore : ℤ × ℤ → Option ℕ

/-- Processing of one neighbour `n` of the popped node `cur`: skip solid
tiles, otherwise relax and push.  `g_score[current]` is total in the
source only because popped nodes always carry a score; the `getD`
default mirrors `g_score.get((nx, ny), 10**9)`. -/
def relaxOne (solid : ℤ × ℤ → Bool) (goal cur : ℤ × ℤ) (st : AState)
    (n : ℤ × ℤ) : AState :=
  if solid n then st
  else
    let tentative := (st.gScore cur).getD (10 ^ 9) + 1
    if tentative < (st.gScore n).getD (10 ^ 9) then
      { openSet := (tentative + manhattan n goal, n) :: st.openSet,
        cameFrom := fun k => if k = n then some cur else st.cameFrom k,
        gScore := fun k => if k = n then some tentative else st.gScore k }
    else st

/-- The neighbour loop of one expansion of `cur`. -/
def expand (solid : ℤ × ℤ → Bool) (goal cur : ℤ × ℤ) (st : AState) : AState :=
  (neighbors cur).foldl (relaxOne solid goal cur) st

/-- Path reconstruction (`while current in came_from`).  The source loop
terminates because `came_from` is acyclic (proved below as part of the
loop invariant); the fuel passed by the caller is large enough that the
fuel-exhaustion branch is never taken. -/
def reconstruct (cf : ℤ × ℤ → Option (ℤ × ℤ)) :
    ℕ → ℤ × ℤ → List (ℤ × ℤ) → List (ℤ × ℤ)
  | 0, cur, acc => cur :: acc
  | fuel + 1, cur, acc =>
    match cf cur with
    | none => cur :: acc
    | some prev => reconstruct cf fuel prev (cur :: acc)

/-- The main search loop of `astar_path`, structured by the remaining
expansion budget.  Returns the resulting path together with the number of
popped (expanded) nodes. -/
def astarLoop (solid : ℤ × ℤ → Bool) (goal : ℤ × ℤ) :
    ℕ → AState → List (ℤ × ℤ) × ℕ
  | 0, _ => ([], 0)
  | fuel + 1, st =>
    match popMin st.openSet with
    | none => ([], 0)
    | some (e, rest) =>
      if e.2 = goal then
        (reconstruct st.cameFrom ((st.gScore e.2).getD 0 + 1) e.2 [], 1)
      else
        let st2 : AState :=
          { openSet := rest, cameFrom := st.cameFrom, gScore := st.gScore }
        let r := astarLoop solid goal fuel (expand solid goal e.2 st2)
        (r.1, r.2 + 1)

/-- The initial search state: `open_set = [(0, start)]`,
`came_from = {}`, `g_score = {start: 0}`. -/
def astarInit (start : ℤ × ℤ) : AState :=
  { openSet := [(0, start)],
    cameFrom := fun _ => none,
    gScore := fun k => if k = start then some 0 else none }

/-- Embedding of `astar_path`, returning the path together with the
number of popped nodes.  The `world` argument is abstracted to the pure
solidity predicate it is queried through (`world.is_solid_tile`; by the
determinism results below the internal chunk caching never changes the
answers). -/
def astarRun (solid : ℤ × ℤ → Bool) (start goal : ℤ × ℤ)
    (maxNodes : ℕ) : List (ℤ × ℤ) × ℕ :=
  if start = goal then ([start], 0)
  else astarLoop solid goal maxNodes (astarInit start)

/-- Embedding of `astar_path` proper (result list only). -/
def astarPath (solid : ℤ × ℤ → Bool) (start goal : ℤ × ℤ)
    (maxNodes : ℕ := 300) : List (ℤ × ℤ) :=
  (astarRun solid start goal maxNodes).1

/-- A sound returned path: starts at `start`, ends at `goal`, each step
moves to a 4-adjacent tile, and every tile on it except possibly `start`
is non-solid. -/
def IsStepPath (solid : ℤ × ℤ → Bool) (start goal : ℤ × ℤ)
    (p : List (ℤ × ℤ)) : Prop :=
  p.head? = some start ∧ p.getLast? = some goal ∧
    List.Chain' (fun a b => b ∈ neighbors a) p ∧
    ∀ c ∈ p.tail, solid c = false

/-! ### Player: the portion of `Player` (src/player.py) used by the event
and entity systems -/

/-- Player state.  A hotbar/inventory slot is `none` for the empty dict
`{}` and `some (id, count)` otherwise. -/
structure Player where
  x : ℚ
  y : ℚ
  hp : ℤ
  hpMax : ℤ
  mana : ℤ
  manaMax : ℤ
  level : ℤ
  exp : ℤ
  reputation : ℤ
  timeSlow : ℚ
  hotbar : List (Option (String × ℤ))
  inventory : List (Option (String × ℤ))
deriving DecidableEq

/-- The level-up loop of `Player.gain_exp`.  One fuel unit per iteration;
the caller passes enough fuel because each iteration strictly decreases
`exp` (by `need ≥ 1`) while keeping it nonnegative.  The `0 < need` guard
is a totality guard: with a nonpositive `need` (impossible from level ≥ 1)
the source loop would not terminate. -/
def gainExpGo : ℕ → Player → Player
  | 0, p => p
  | fuel + 1, p =>
    let need := 70 + p.level * 35
    if 0 < need ∧ need ≤ p.exp then
      gainExpGo fuel { p with
        exp := p.exp - need, level := p.level + 1,
        hpMax := p.hpMax + 8, manaMax := p.manaMax + 6,
        hp := p.hpMax + 8, mana := p.manaMax + 6 }
    else p

/-- Embedding of `Player.gain_exp` (the returned level-up count is unused
by the event system and omitted). -/
def gainExp (p : Player) (amount : ℤ) : Player :=
  gainExpGo (p.exp + amount).toNat { p with exp := p.exp + amount }

/-- Embedding of `Player.add_item`: first pass looks for a stack with the
same id over `hotbar + inventory`, second pass for an empty slot. -/
def addItem (p : Player) (itemId : String) (count : ℤ) : Player :=
  let combined := p.hotbar ++ p.inventory
  let combined2 :=
    match combined.findIdx? (fun s => match s with
      | some (i, _) => i == itemId
      | none => false) with
    | some i =>
      combined.set i (match combined.getD i none with
        | some (j, c) => some (j, c + count)
        | none => some (itemId, count))
    | none =>
      match combined.findIdx? (fun s => s == none) with
      | some i => combined.set i (some (itemId, count))
      | none => combined
  { p with
    hotbar := combined2.take p.hotbar.length,
    inventory := combined2.drop p.hotbar.length }

/-! ### Entities: embedding of `EntityManager` (src/entities.py) -/

/-- Entity state, mirroring `BaseEntity` (the facing vector is split into
its two rational components). -/
structure Ent where
  x : ℚ
  y : ℚ
  etype : String
  faction : String
  hp : ℤ
  speed : ℚ
  radius : ℚ
  state : String
  talkCooldown : ℚ
  aiTimer : ℚ
  dirx : ℚ
  diry : ℚ
deriving DecidableEq

/-- `BaseEntity(x, y, etype, faction, hp, speed, radius)` with the
dataclass defaults for the remaining fields. -/
def mkEntity (x y : ℚ) (etype faction : String) (hp : ℤ) (speed radius : ℚ) :
    Ent :=
  { x := x, y := y, etype := etype, faction := faction, hp := hp,
    speed := speed, radius := radius, state := "wander", talkCooldown := 0,
    aiTimer := 0, dirx := 1, diry := 0 }

/-- Placeholder entity for out-of-range list reads (never reached: every
index handed to `getD` is in range). -/
def defaultEnt : Ent := mkEntity 0 0 "" "" 0 0 0

/-- State owned by `EntityManager`: the entity list, the faction relation
map, and the positions reached in the two pseudo-random streams (the
manager's seeded `self.rng` and the module-level `random`). -/
structure EMState where
  entities : List Ent
  factionRelations : List ((String × String) × ℤ)
  rngCtr : ℕ
  glCtr : ℕ

/-- Embedding of `EntityManager.damage_entity`. -/
def damageEntity (e : Ent) (amount : ℤ) : Ent × Bool :=
  ({ e with hp := e.hp - amount }, decide (e.hp - amount ≤ 0))

/-- The dialogue lines of `EntityManager.dialogue_trees`, with the
`["..."]` fallback of `get_talk_line`. -/
def dialogueLines (etype : String) : List String :=
  if etype = "villager" then
    ["Вчера луна была фиолетовой...",
     "Пожалуйста, защити нашу маленькую деревню!",
     "Говорят, по ночам в руинах поёт дракон."]
  else if etype = "merchant" then
    ["Свежие зелья! Редкая руда! Лучшие товары!",
     "Принеси ядра монстров, и я щедро заплачу.",
     "Караван пропал на севере. Очень странно..."]
  else if etype = "waifu" then
    ["Сэмпай, твоя аура становится всё сильнее!",
     "Я помогу твоей базе, если построишь дом.",
     "Герой-соперник бросил вызов твоей легенде."]
  else ["..."]

/-- Embedding of `localize_entity` (src/localization.py): table lookup
with the underscore-to-space fallback. -/
def localizeEntity (e : String) : String :=
  if e = "villager" then "Житель"
  else if e = "merchant" then "Торговец"
  else if e = "waifu" then "Спутница"
  else if e = "slime" then "Слизень"
  else if e = "goblin" then "Гоблин"
  else if e = "wolf" then "Волк"
  else if e = "dragon" then "Дракон"
  else if e = "demon_lord" then "Повелитель демонов"
  else if e = "spirit" then "Дух"
  else if e = "wolf_ally" then "Волк-союзник"
  else if e = "knight" then "Рыцарь"
  else (String.mk (e.toList.map (fun c => if c = '_' then ' ' else c))).trim

/-- Numeric and pseudo-random oracle for `EntityManager.update`:
`hypot` stands for `math.hypot`, `norm` for `pygame.Vector2.normalize`,
`vlen` for `Vector2.length`, `cosF`/`sinF` for `math.cos`/`math.sin`;
`gdraw k`/`gchoose k` are the k-th float draw / choice index of the
module-level `random` generator, `rdraw k`/`rchoose k` those of the
manager's seeded `self.rng`.  Every theorem below quantifies over the
oracle, hence covers the concrete floating-point generators. -/
structure EntOracle where
  hypot : ℚ → ℚ → ℚ
  norm : ℚ → ℚ → ℚ × ℚ
  vlen : ℚ → ℚ → ℚ
  cosF : ℚ → ℚ
  sinF : ℚ → ℚ
  gdraw : ℕ → ℚ
  gchoose : ℕ → ℕ
  rdraw : ℕ → ℚ
  rchoose : ℕ → ℕ

/-- Log entries emitted by `EntityManager.update` (Python dicts with a
`"type"` key). -/
inductive LogEntry
  | dialogue (text : String)
  | loot (item : String) (x y : ℚ) (exp : ℤ)
deriving DecidableEq

/-- Embedding of `EntityManager.nearest_entity`, returning the index of
the found entity (the source returns the object; the index identifies it
in the state list).  Keeps the first strictly-closest match, skipping dead
entities and faction mismatches (`faction_filter and ...` makes the empty
string act as no filter, as in the source's truthiness test). -/
def nearestIdx (ents : List Ent) (x y maxDist : ℚ)
    (facFilter : Option String) : Option ℕ :=
  (ents.enum.foldl (fun (acc : ℚ × Option ℕ) (ie : ℕ × Ent) =>
    let e := ie.2
    if e.hp ≤ 0 then acc
    else if (match facFilter with
      | some f => !(f == "") && !(e.faction == f)
      | none => false) then acc
    else
      let d2 := (e.x - x) ^ 2 + (e.y - y) ^ 2
      if d2 < acc.1 then (d2, some ie.1) else acc)
    (maxDist * maxDist, none)).2

/-- Working state threaded through the per-entity loop of
`EntityManager.update`. -/
structure TickState where
  ents : List Ent
  player : Player
  logs : List LogEntry
  glCtr : ℕ
  rngCtr : ℕ

/-- Body of the per-entity loop of `EntityManager.update` for the entity
at index `i`: AI timer/state re-evaluation, state behaviour (chase with
bounded A*, social dialogue, assist with contact damage, wander drift)
and the naive solid-tile collision correction, with all position floats
as rationals and float primitives supplied by the oracle. -/
def entStep (o : EntOracle) (solid : ℤ × ℤ → Bool) (dt scale : ℚ)
    (st : TickState) (i : ℕ) : TickState :=
  let ent0 := st.ents.getD i defaultEnt
  if ent0.hp ≤ 0 then st
  else
    let ent1 := { ent0 with aiTimer := ent0.aiTimer - dt * scale }
    let ent2 := if ent1.talkCooldown > 0 then
      { ent1 with talkCooldown := ent1.talkCooldown - dt } else ent1
    let dx := st.player.x - ent2.x
    let dy := st.player.y - ent2.y
    let dist := o.hypot dx dy
    let aiRes : Ent × ℕ :=
      if ent2.aiTimer ≤ 0 then
        let ent3 := { ent2 with aiTimer := o.gdraw st.glCtr }
        if (ent3.faction = "monsters" ∨ ent3.faction = "boss") ∧ dist < 300 then
          ({ ent3 with state := "chase" }, st.glCtr + 1)
        else if ent3.faction = "allies" then
          ({ ent3 with state := "assist" }, st.glCtr + 1)
        else if ent3.faction = "villagers" ∧ dist < 130 then
          ({ ent3 with state := "social" }, st.glCtr + 1)
        else
          let ang := o.gdraw (st.glCtr + 1)
          ({ ent3 with
              state := "wander",
              dirx := o.cosF ang, diry := o.sinF ang }, st.glCtr + 2)
      else (ent2, st.glCtr)
    let ent4 := aiRes.1
    let g1 := aiRes.2
    let after : Ent × List Ent × Player × List LogEntry × ℕ × ℕ :=
      if ent4.state = "chase" ∧ dist > 2 then
        let s := (⌊ent4.x / 32⌋, ⌊ent4.y / 32⌋)
        let g := (⌊st.player.x / 32⌋, ⌊st.player.y / 32⌋)
        let path := astarPath solid s g 220
        let ent5 :=
          if 1 < path.length then
            let nxy := path.getD 1 (0, 0)
            let vx := (nxy.1 : ℚ) * 32 + 16 - ent4.x
            let vy := (nxy.2 : ℚ) * 32 + 16 - ent4.y
            if vx ^ 2 + vy ^ 2 > 0 then
              { ent4 with dirx := (o.norm vx vy).1, diry := (o.norm vx vy).2 }
            else ent4
          else
            if dx ^ 2 + dy ^ 2 > 0 then
              { ent4 with dirx := (o.norm dx dy).1, diry := (o.norm dx dy).2 }
            else ent4
        let speed := ent5.speed * scale
        let ent6 := { ent5 with
          x := ent5.x + ent5.dirx * speed * dt,
          y := ent5.y + ent5.diry * speed * dt }
        let player1 := if dist < 28 then
          { st.player with
            hp := max 0 (st.player.hp - (if ent6.faction = "boss" then 6 else 3)) }
          else st.player
        (ent6, st.ents, player1, st.logs, g1, st.rngCtr)
      else if ent4.state = "social" then
        if dist < 80 ∧ ent4.talkCooldown ≤ 0 then
          if o.gdraw g1 < 3 / 1000 then
            let lines := dialogueLines ent4.etype
            let line := lines.getD (o.rchoose st.rngCtr % lines.length) ""
            ({ ent4 with talkCooldown := 8 }, st.ents, st.player,
              st.logs ++ [LogEntry.dialogue (localizeEntity ent4.etype ++ ": " ++ line)],
              g1 + 1, st.rngCtr + 1)
          else (ent4, st.ents, st.player, st.logs, g1 + 1, st.rngCtr)
        else (ent4, st.ents, st.player, st.logs, g1, st.rngCtr)
      else if ent4.state = "assist" then
        let tIdx := match nearestIdx st.ents ent4.x ent4.y 260 (some "monsters") with
          | some j => some j
          | none => nearestIdx st.ents ent4.x ent4.y 300 (some "boss")
        match tIdx with
        | some j =>
          let tgt := st.ents.getD j defaultEnt
          let vx := tgt.x - ent4.x
          let vy := tgt.y - ent4.y
          let ent5 := if vx ^ 2 + vy ^ 2 > 0 then
            { ent4 with dirx := (o.norm vx vy).1, diry := (o.norm vx vy).2 }
            else ent4
          let speed := ent5.speed * scale
          let ent6 := { ent5 with
            x := ent5.x + ent5.dirx * speed * dt,
            y := ent5.y + ent5.diry * speed * dt }
          if o.vlen vx vy < ent6.radius + tgt.radius + 10 then
            let entsD := st.ents.set j { tgt with hp := tgt.hp - 5 }
            let ent7 := if j = i then { ent6 with hp := ent6.hp - 5 } else ent6
            (ent7, entsD, st.player, st.logs, g1, st.rngCtr)
          else (ent6, st.ents, st.player, st.logs, g1, st.rngCtr)
        | none =>
          let vx := st.player.x - ent4.x
          let vy := st.player.y - ent4.y
          if vx ^ 2 + vy ^ 2 > 40 then
            let ent5 := { ent4 with dirx := (o.norm vx vy).1, diry := (o.norm vx vy).2 }
            let ent6 := { ent5 with
              x := ent5.x + ent5.dirx * ent5.speed * (7 / 10) * dt,
              y := ent5.y + ent5.diry * ent5.speed * (7 / 10) * dt }
            (ent6, st.ents, st.player, st.logs, g1, st.rngCtr)
          else (ent4, st.ents, st.player, st.logs, g1, st.rngCtr)
      else
        let speed := ent4.speed * (45 / 100) * scale
        let ent5 := { ent4 with
          x := ent4.x + ent4.dirx * speed * dt,
          y := ent4.y + ent4.diry * speed * dt }
        (ent5, st.ents, st.player, st.logs, g1, st.rngCtr)
    let entF := after.1
    let entC := if solid (⌊entF.x / 32⌋, ⌊entF.y / 32⌋) then
      { entF with
        x := entF.x - entF.dirx * entF.speed * dt,
        y := entF.y - entF.diry * entF.speed * dt,
        dirx := -entF.dirx, diry := -entF.diry }
      else entF
    { ents := after.2.1.set i entC, player := after.2.2.1,
      logs := after.2.2.2.1, glCtr := after.2.2.2.2.1,
      rngCtr := after.2.2.2.2.2 }

/-- The end-of-tick sweep of `EntityManager.update`: keeps the entities
with `hp > 0` and emits one loot log per dead hostile-faction entity. -/
def sweep (o : EntOracle) (ents : List Ent) (logs : List LogEntry)
    (g : ℕ) : List Ent × List LogEntry × ℕ :=
  ents.foldl (fun acc ent =>
    if ent.hp > 0 then (acc.1 ++ [ent], acc.2.1, acc.2.2)
    else if ent.faction = "monsters" ∨ ent.faction = "boss" then
      let drops := ["wood", "ore", "core", "gold"]
      let drop := drops.getD (o.gchoose acc.2.2 % drops.length) ""
      (acc.1, acc.2.1 ++ [LogEntry.loot drop ent.x ent.y
        (if ent.faction = "monsters" then 14 else 60)], acc.2.2 + 1)
    else (acc.1, acc.2.1, acc.2.2))
    ([], logs, g)

/-- Embedding of `EntityManager.spawn_near_player`: population cap, spawn
probability, and the fixed stat templates. -/
def spawnNearPlayer (o : EntOracle) (px py : ℚ) (ents : List Ent)
    (r : ℕ) : List Ent × ℕ :=
  if 55 < ents.length then (ents, r)
  else if o.rdraw r < 2 / 100 then
    let types := ["slime", "goblin", "wolf"]
    let et := types.getD (o.rchoose (r + 1) % types.length) ""
    let ang := o.rdraw (r + 2)
    let d := o.rdraw (r + 3)
    let x := px + o.cosF ang * d
    let y := py + o.sinF ang * d
    let stats : ℤ × ℚ × ℚ :=
      if et = "slime" then (25, 70, 10)
      else if et = "goblin" then (35, 90, 12)
      else (30, 108, 10)
    (ents ++ [mkEntity x y et "monsters" stats.1 stats.2.1 stats.2.2], r + 4)
  else (ents, r + 1)

/-- Embedding of `EntityManager.update`: per-entity AI loop, dead-entity
sweep with loot logs, then the proximity spawner.  Returns the new
manager state, the updated player and the emitted logs.  The `world`
argument is abstracted to the solidity predicate it is queried through. -/
def emUpdate (o : EntOracle) (solid : ℤ × ℤ → Bool) (dt : ℚ)
    (p : Player) (em : EMState) : EMState × Player × List LogEntry :=
  let scale : ℚ := if p.timeSlow > 0 then 45 / 100 else 1
  let st0 : TickState :=
    { ents := em.entities, player := p, logs := [],
      glCtr := em.glCtr, rngCtr := em.rngCtr }
  let st1 := (List.range em.entities.length).foldl (entStep o solid dt scale) st0
  let sw := sweep o st1.ents st1.logs st1.glCtr
  let sp := spawnNearPlayer o st1.player.x st1.player.y sw.1 st1.rngCtr
  ({ entities := sp.1, factionRelations := em.factionRelations,
     rngCtr := sp.2, glCtr := sw.2.2 },
   st1.player, sw.2.1)

/-! ### Events: embedding of `EventSystem` (src/events.py) -/

/-- Reward descriptor of a `WorldEvent` (`event.reward` with keys
`exp`/`rep`/`items`; `complete_event` reads the keys with defaults, and
every reward built by the system carries all three). -/
structure Reward where
  exp : ℤ
  rep : ℤ
  items : List (String × ℤ)
deriving DecidableEq

/-- Embedding of the `WorldEvent` dataclass. -/
structure WorldEvent where
  eid : ℤ
  etype : String
  title : String
  description : String
  biome : String
  difficulty : ℤ
  reward : Reward
  timer : ℚ
  chainTag : String
  resolved : Bool
deriving DecidableEq

/-- Placeholder event for out-of-range list reads (never reached). -/
def defaultEvent : WorldEvent :=
  { eid := 0, etype := "", title := "", description := "", biome := "",
    difficulty := 0, reward := { exp := 0, rep := 0, items := [] },
    timer := 0, chainTag := "", resolved := false }

/-- State owned by `EventSystem`; `ctr` is the position reached in the
oracle stream of the system's seeded `self.rng`. -/
structure EventSystem where
  ctr : ℕ
  activeEvents : List WorldEvent
  completedEvents : List String
  nextEventId : ℤ
  gameMinutes : ℚ
  nextEventIn : ℚ
  nextFlavorIn : ℚ

/-- Oracle for the event system's seeded generator `self.rng`: `rand k`
is the k-th `random()`/`uniform` float draw, `choose k` the k-th choice
index, `randint k` the k-th `randint` value.  Each call consumes one
stream position. -/
structure RngOracle where
  rand : ℕ → ℚ
  choose : ℕ → ℕ
  randint : ℕ → ℤ

/-- Embedding of `EventSystem._new_event`: builds the event with the
current `next_event_id` and increments the counter. -/
def newEvent (es : EventSystem) (etype title desc biome : String)
    (difficulty : ℤ) (reward : Reward) (timer : ℚ) (chainTag : String) :
    WorldEvent × EventSystem :=
  ({ eid := es.nextEventId, etype := etype, title := title,
     description := desc, biome := biome, difficulty := difficulty,
     reward := reward, timer := timer, chainTag := chainTag,
     resolved := false },
   { es with nextEventId := es.nextEventId + 1 })

/-- Prefix test on character lists. -/
def listPre : List Char → List Char → Bool
  | [], _ => true
  | _ :: _, [] => false
  | a :: as, b :: bs => a == b && listPre as bs

/-- Substring test (Python `needle in haystack`) on character lists. -/
def listSub (needle : List Char) : List Char → Bool
  | [] => listPre needle []
  | a :: rest => listPre needle (a :: rest) || listSub needle rest

/-- Substring containment `needle in hay` for strings. -/
def strContains (hay needle : String) : Bool :=
  listSub needle.toList hay.toList

/-- Lower-casing as used in `event.title.lower()`.  Lean's `toLower`
maps only ASCII letters; the Cyrillic substring probes of
`_apply_world_impact` ("руин", "благослов") are already lower-case in
every title the system generates, so the branch taken agrees with the
source on all system-generated events (and no theorem below depends on
which impact branch is taken). -/
def strLower (s : String) : String := s.toLower

/-- Embedding of `EventSystem._apply_world_impact`: raid block-damage or
monster injection, "ruins" wall stamping, "blessing/curse" faction
shifts.  Returns the impact message, the advanced rng position and the
mutated world and entity state. -/
def applyWorldImpact (o : RngOracle) (ev : WorldEvent) (ctr : ℕ)
    (w : World) (en : EMState) : String × ℕ × World × EMState :=
  if ev.etype = "raid" then
    let r := o.rand ctr
    if r < 1 / 2 ∧ w.playerBlocks ≠ [] then
      let keys := w.playerBlocks.map Prod.fst
      let key := keys.getD (o.choose (ctr + 1) % keys.length) (0, 0)
      ("Набег повредил стену базы.", ctr + 2,
        w.removePlayerBlock key.1 key.2, en)
    else
      let cnt := (min 5 (1 + Int.fdiv ev.difficulty 2)).toNat
      let spawn := (List.range cnt).foldl (fun (st : ℕ × EMState) _ =>
        let c := st.1
        let x := (o.randint c : ℚ)
        let y := (o.randint (c + 1) : ℚ)
        let types := ["slime", "goblin", "wolf"]
        let et := types.getD (o.choose (c + 2) % types.length) ""
        (c + 3, { st.2 with entities := st.2.entities ++
          [mkEntity x y et "monsters" (28 + ev.difficulty * 2)
            ((80 : ℚ) + (ev.difficulty : ℚ) * 2) 11] }))
        (ctr + 1, en)
      ("Силы монстров вошли в регион.", spawn.1, w, spawn.2)
  else if ev.etype = "world" ∧ strContains (strLower ev.title) "руин" then
    let tx := o.randint ctr
    let ty := o.randint (ctr + 1)
    let offs : List ℤ := [-2, -1, 0, 1, 2]
    let w2 := offs.foldl (fun wy oy => offs.foldl (fun wx ox =>
      wx.placePlayerBlock (tx + ox) (ty + oy) "wall") wy) w
    ("Древние руины сформировали таинственную структуру.", ctr + 2, w2, en)
  else if ev.etype = "isekai" ∧ strContains (strLower ev.title) "благослов" then
    let r := o.rand ctr
    if r < 1 / 2 then
      let cur := (alookup en.factionRelations ("player", "villagers")).getD 0
      ("Благословение усилило доверие жителей к тебе.", ctr + 1, w,
        { en with factionRelations := aset en.factionRelations ("player", "villagers") (cur + 10) })
    else
      let cur := (alookup en.factionRelations ("player", "monsters")).getD (-80)
      ("Проклятие сделало монстров более агрессивными.", ctr + 1, w,
        { en with factionRelations := aset en.factionRelations ("player", "monsters") (cur - 10) })
  else ("Мир незаметно изменился.", ctr, w, en)

/-- Reward granting performed by `complete_event`: experience, then
reputation, then each item grant in order. -/
def grantReward (p : Player) (rw : Reward) : Player :=
  let p1 := gainExp p rw.exp
  let p2 := { p1 with reputation := p1.reputation + rw.rep }
  rw.items.foldl (fun q it => addItem q it.1 it.2) p2

/-- Result record of `complete_event`. -/
structure CompleteResult where
  es : EventSystem
  player : Player
  world : World
  ents : EMState
  msg : Option String

/-- Embedding of `EventSystem.complete_event`: finds the first active
event with the given id that is not yet resolved; on a match it marks it
resolved in place, grants the reward, applies the world impact, appends
the title to the completion history, and runs the chain-tag follow-up
logic (`defense` chains with probability 0.55 into a `questline` quest of
difficulty `max(1, d)`; `questline` chains with probability 0.45 into an
`isekai` ambush of difficulty `d + 1`; any other tag never chains).
Without a match it returns everything unchanged and no message. -/
def completeEvent (o : RngOracle) (es : EventSystem) (eventId : ℤ)
    (p : Player) (w : World) (en : EMState) : CompleteResult :=
  match es.activeEvents.findIdx? (fun e => e.eid == eventId && !e.resolved) with
  | none => ⟨es, p, w, en, none⟩
  | some i =>
    let ev := es.activeEvents.getD i defaultEvent
    let active1 := es.activeEvents.set i { ev with resolved := true }
    let p1 := grantReward p ev.reward
    let imp := applyWorldImpact o ev es.ctr w en
    let es1 : EventSystem :=
      { es with
        ctr := imp.2.1, activeEvents := active1,
        completedEvents := es.completedEvents ++ [ev.title] }
    if ev.chainTag = "defense" then
      if o.rand es1.ctr < 11 / 20 then
        let fe := newEvent { es1 with ctr := es1.ctr + 1 } "quest"
          "Просьба благодарной деревни"
          "Жители просят сопроводить повозку с припасами по опасной дороге."
          ev.biome (max 1 ev.difficulty)
          { exp := 45, rep := 4, items := [("gold", 6)] } 90 "questline"
        ⟨{ fe.2 with activeEvents := fe.2.activeEvents ++ [fe.1] },
          p1, imp.2.2.1, imp.2.2.2,
          some ("Событие завершено: " ++ ev.title ++ ". " ++ imp.1 ++
            " Открыто продолжение: " ++ fe.1.title ++ ".")⟩
      else
        ⟨{ es1 with ctr := es1.ctr + 1 }, p1, imp.2.2.1, imp.2.2.2,
          some ("Событие завершено: " ++ ev.title ++ ". " ++ imp.1)⟩
    else if ev.chainTag = "questline" then
      if o.rand es1.ctr < 9 / 20 then
        let fe := newEvent { es1 with ctr := es1.ctr + 1 } "isekai"
          "Засада героя-соперника"
          "Появляется соперник из исекая и бросает вызов твоей легенде."
          ev.biome (ev.difficulty + 1)
          { exp := 65, rep := 2, items := [("core", 2), ("gold", 5)] } 100 "isekai"
        ⟨{ fe.2 with activeEvents := fe.2.activeEvents ++ [fe.1] },
          p1, imp.2.2.1, imp.2.2.2,
          some ("Событие завершено: " ++ ev.title ++ ". " ++ imp.1 ++
            " Цепная реакция: " ++ fe.1.title ++ ".")⟩
      else
        ⟨{ es1 with ctr := es1.ctr + 1 }, p1, imp.2.2.1, imp.2.2.2,
          some ("Событие завершено: " ++ ev.title ++ ". " ++ imp.1)⟩
    else
      ⟨es1, p1, imp.2.2.1, imp.2.2.2,
        some ("Событие завершено: " ++ ev.title ++ ". " ++ imp.1)⟩

/-- The unresolved portion of the active list: exactly the events kept by
the sweep in `EventSystem.update` (its `keep` loop skips resolved
events), i.e. the "active set" in the sense of the specification. -/
def unresolvedActive (es : EventSystem) : List WorldEvent :=
  es.activeEvents.filter (fun e => !e.resolved)

/-! ### Auxiliary definitions used in statements and witnesses -/

/-- The pure tile value at a coordinate, read off the freshly generated
containing chunk: the value `get_tile` always returns (proved below). -/
def tileAt (cfg : NoiseCfg) (seed tx ty : ℤ) : String :=
  ((generateChunk cfg seed (Int.fdiv tx 32) (Int.fdiv ty 32)).tiles.getD
    (ty % 32).toNat []).getD (tx % 32).toNat ""

/-- Chunk-cache soundness: every cached chunk is exactly the chunk the
generator produces for its key, and the configuration is the initial one. -/
def CacheOK (cfg : NoiseCfg) (seed : ℤ) (w : World) : Prop :=
  w.cfg = cfg ∧ w.seed = seed ∧
    ∀ k c, alookup w.chunks k = some c → c = generateChunk cfg seed k.1 k.2

/-- A concrete noise oracle used for witness instantiations. -/
def cfgZero : NoiseCfg := { noise := fun _ _ _ => 0, cellRand := fun _ => 0 }

/-- A concrete all-grass chunk used for witness instantiations. -/
def flatChunk : Chunk :=
  { tiles := List.replicate 32 (List.replicate 32 "grass"), props := [] }

/-- A concrete world with a pre-populated chunk cache and one wall
override, used for witness instantiations. -/
def wTest : World :=
  { World.init cfgZero 42 with
    chunks := [((0, 0), flatChunk)],
    playerBlocks := [((5, 5), "wall")] }

/-- A concrete world with a small discovered set, used for witness
instantiations. -/
def wSmall : World :=
  { World.init cfgZero 42 with discovered := [(1, 2), (3, 4)] }

/-- Loop invariant of `astar_path`: the start keeps cost 0 and no
predecessor; every `came_from` edge records an adjacency move onto a
non-solid tile with strictly decreasing cost towards its parent; every
scored node other than the start has a predecessor; every open-heap entry
is scored. -/
structure AInv (solid : ℤ × ℤ → Bool) (start : ℤ × ℤ) (st : AState) : Prop where
  gStart : st.gScore start = some 0
  cfStart : st.cameFrom start = none
  cfProp : ∀ n c, st.cameFrom n = some c → n ∈ neighbors c ∧
    solid n = false ∧
    ∃ gn gc, st.gScore n = some gn ∧ st.gScore c = some gc ∧ gc + 1 ≤ gn
  gDom : ∀ n gn, st.gScore n = some gn → n = start ∨ st.cameFrom n ≠ none
  openDom : ∀ e ∈ st.openSet, ∃ g0, st.gScore e.2 = some g0

/-- One axis step toward a target coordinate. -/
def stepToward (a b : ℤ) : ℤ :=
  if a < b then a + 1 else if b < a then a - 1 else a

/-- The canonical Manhattan geodesic from `start` to `goal`: first along
the x axis, then along the y axis.  Used only in proofs about `astar_path`
on an open grid. -/
def geo (start goal : ℤ × ℤ) : ℕ → ℤ × ℤ
  | 0 => start
  | i + 1 =>
    let p := geo start goal i
    if p.1 ≠ goal.1 then (stepToward p.1 goal.1, p.2)
    else (p.1, stepToward p.2 goal.2)

/-- Cost lower bound: every score is at least the true grid distance from
the start. -/
def GLB (start : ℤ × ℤ) (st : AState) : Prop :=
  ∀ n k, st.gScore n = some k → manhattan start n ≤ k

/-- Heap entry bound: every entry other than the initial `(0, start)` was
pushed with priority `tentative + h`, and scores only decrease, so its
priority dominates the current score plus heuristic. -/
def EntryF (start goal : ℤ × ℤ) (st : AState) : Prop :=
  ∀ e ∈ st.openSet, e.2 = start ∨
    ∃ gc, st.gScore e.2 = some gc ∧ gc + manhattan e.2 goal ≤ e.1

/-- No geodesic node beyond index `m` carries its optimal score yet. -/
def MaxOnly (start goal : ℤ × ℤ) (m : ℕ) (st : AState) : Prop :=
  ∀ j, j ≤ manhattan start goal → st.gScore (geo start goal j) = some j →
    j ≤ m

/-- Optimal-frontier invariant: either the goal already carries its
optimal score, or the furthest geodesic node with optimal score is still
on the open heap with the optimal priority. -/
def OptInv (start goal : ℤ × ℤ) (st : AState) : Prop :=
  st.gScore goal = some (manhattan start goal) ∨
  ∃ m, m < manhattan start goal ∧
    st.gScore (geo start goal m) = some m ∧
    MaxOnly start goal m st ∧
    (m + manhattan (geo start goal m) goal, geo start goal m) ∈ st.openSet

/-- Concrete solidity predicate for witness instantiations: exactly the
four tiles surrounding the origin are solid. -/
def enclosedSolid : ℤ × ℤ → Bool := fun p =>
  [((1 : ℤ), (0 : ℤ)), (-1, 0), (0, 1), (0, -1)].contains p

/-- Event-system oracle whose draws are all zero (its `rand` values lie
below every chain probability, so each chain fires). -/
def zeroRng : RngOracle :=
  { rand := fun _ => 0, choose := fun _ => 0, randint := fun _ => 0 }

/-- A minimal concrete player for closed event-completion instances. -/
def pZero : Player :=
  { x := 0, y := 0, hp := 100, hpMax := 100, mana := 50, manaMax := 50,
    level := 1, exp := 0, reputation := 0, timeSlow := 0,
    hotbar := [none, none, none], inventory := [none, none, none] }

/-- An empty entity-manager state. -/
def emZero : EMState :=
  { entities := [], factionRelations := [], rngCtr := 0, glCtr := 0 }

/-- A concrete defense-tagged quest event of difficulty 3 with an empty
reward. -/
def evDefense : WorldEvent :=
  { eid := 1, etype := "quest", title := "Оборона деревни",
    description := "", biome := "plains", difficulty := 3,
    reward := { exp := 0, rep := 0, items := [] },
    timer := 60, chainTag := "defense", resolved := false }

/-- An event system whose only active event is `evDefense`. -/
def esDefense : EventSystem :=
  { ctr := 0, activeEvents := [evDefense], completedEvents := [],
    nextEventId := 2, gameMinutes := 0, nextEventIn := 100,
    nextFlavorIn := 100 }

/-- A dead monster entity (hp 0) for closed entity-loop instances. -/
def entDead : Ent := mkEntity 0 0 "slime" "monsters" 0 70 10

/-- A one-entity tick state whose only entity is already dead. -/
def stDead : TickState :=
  { ents := [entDead], player := pZero, logs := [], glCtr := 0,
    rngCtr := 0 }

/-- Entity-manager oracle whose numeric primitives all return zero. -/
def oZeroEnt : EntOracle :=
  { hypot := fun _ _ => 0, norm := fun _ _ => (0, 0),
    vlen := fun _ _ => 0, cosF := fun _ => 0, sinF := fun _ => 0,
    gdraw := fun _ => 0, gchoose := fun _ => 0, rdraw := fun _ => 1,
    rchoose := fun _ => 0 }

/-! ## Theorems -/

theorem alookup_aset {α β : Type} [DecidableEq α] (l : List (α × β)) (a x : α)
    (b : β) : alookup (aset l a b) x = if a = x then some b else alookup l x := by
  induction l with
  | nil => simp [aset, alookup]
  | cons kv rest ih =>
    obtain ⟨k, v⟩ := kv
    by_cases hk : k = a
    · subst hk
      by_cases hx : k = x <;> simp [aset, alookup, hx]
    · by_cases hx : k = x
      · subst hx
        simp [aset, alookup, hk, show ¬ k = k → False from fun h => h rfl,
          show ¬ a = k from fun h => hk h.symm]
      · simp [aset, alookup, hk, hx, ih]

theorem alookup_eq_none_of_not_mem {α β : Type} [DecidableEq α]
    (l : List (α × β)) (a : α) (h : a ∉ l.map Prod.fst) : alookup l a = none := by
  induction l with
  | nil => simp [alookup]
  | cons kv rest ih =>
    obtain ⟨k, v⟩ := kv
    simp only [List.map_cons, List.mem_cons] at h
    push_neg at h
    simp [alookup, Ne.symm h.1, ih h.2]

theorem alookup_aremove_aset {α β : Type} [DecidableEq α] (l : List (α × β))
    (a : α) (b : β) (hnd : (l.map Prod.fst).Nodup) :
    alookup (aremove (aset l a b) a) a = none := by
  induction l with
  | nil => simp [aset, aremove, alookup]
  | cons kv rest ih =>
    obtain ⟨k, v⟩ := kv
    simp only [List.map_cons, List.nodup_cons] at hnd
    by_cases hk : k = a
    · subst hk
      simp only [aset, if_pos rfl, aremove, if_pos rfl]
      exact alookup_eq_none_of_not_mem rest k hnd.1
    · simp [aset, aremove, hk, alookup, Ne.symm hk, ih hnd.2]

/-- C2: for every tile coordinate carrying a `"wall"` player-block
override, `is_solid_tile` reports solid regardless of the generated tile;
and after `place_player_block(tx, ty, "wall")` followed by
`remove_player_block(tx, ty)`, `is_solid_tile` equals the underlying
generated tile's membership in the solid set `{water, stone}`. -/
theorem c2_wall_override_solidity (w : World) (tx ty : ℤ)
    (hnd : (w.playerBlocks.map Prod.fst).Nodup) :
    (alookup w.playerBlocks (tx, ty) = some "wall" →
      (w.isSolidTile tx ty).1 = true) ∧
    ((((w.placePlayerBlock tx ty "wall").removePlayerBlock tx ty).isSolidTile
        tx ty).1 =
      solidTiles.contains
        ((((w.placePlayerBlock tx ty "wall").removePlayerBlock tx
          ty).getTile tx ty).1)) := by
  constructor
  · intro h
    simp [World.isSolidTile, h]
  · have hnone : alookup
        ((w.placePlayerBlock tx ty "wall").removePlayerBlock tx
          ty).playerBlocks (tx, ty) = none := by
      simpa [World.placePlayerBlock, World.removePlayerBlock] using
        alookup_aremove_aset w.playerBlocks (tx, ty) "wall" hnd
    simp [World.isSolidTile, hnone]

/-- Closed instance of `c2_wall_override_solidity` at a concrete world. -/
theorem c2_wall_override_solidity_witness :
    ((wTest.isSolidTile 5 5).1 = true) ∧
    ((((wTest.placePlayerBlock 5 5 "wall").removePlayerBlock 5
        5).isSolidTile 5 5).1 =
      solidTiles.contains
        ((((wTest.placePlayerBlock 5 5 "wall").removePlayerBlock 5
          5).getTile 5 5).1)) := by
  have h := c2_wall_override_solidity wTest 5 5 (by decide)
  exact ⟨h.1 (by decide), h.2⟩

/-- C9: `place_player_block` accepts an arbitrary block-kind string, and
any override with kind other than `"wall"` makes `is_solid_tile` report
`false`, whatever the generated tile is. -/
theorem c9_nonwall_override_passable (w : World) (tx ty : ℤ) (k : String)
    (hk : k ≠ "wall") :
    (alookup (w.placePlayerBlock tx ty k).playerBlocks (tx, ty) = some k) ∧
    (∀ v : World, alookup v.playerBlocks (tx, ty) = some k →
      (v.isSolidTile tx ty).1 = false) := by
  constructor
  · simpa [World.placePlayerBlock] using
      alookup_aset w.playerBlocks (tx, ty) (tx, ty) k
  · intro v hv
    simp [World.isSolidTile, hv, hk]

/-- Closed instance of `c9_nonwall_override_passable`: a `"door"` override
on a tile whose generated kind is water still reports non-solid. -/
theorem c9_nonwall_override_passable_witness :
    (alookup (wTest.placePlayerBlock 7 7 "door").playerBlocks (7, 7) =
      some "door") ∧
    (((wTest.placePlayerBlock 7 7 "door").isSolidTile 7 7).1 = false) := by
  have h := c9_nonwall_override_passable wTest 7 7 "door" (by decide)
  exact ⟨h.1, h.2 (wTest.placePlayerBlock 7 7 "door") (by decide)⟩

theorem foldl_setAdd_eq_self {α : Type} [DecidableEq α] :
    ∀ (l acc : List α), (acc ++ l).Nodup → l.foldl setAdd acc = acc ++ l := by
  intro l
  induction l with
  | nil => intro acc _; simp
  | cons a rest ih =>
    intro acc hnd
    have hnd2 : ((acc ++ [a]) ++ rest).Nodup := by
      simpa [List.append_assoc] using hnd
    have ha : a ∉ acc := by
      have hdisj := (List.nodup_append.mp hnd).2.2
      intro hmem
      exact hdisj hmem (List.mem_cons_self a rest)
    calc (a :: rest).foldl setAdd acc
        = rest.foldl setAdd (setAdd acc a) := rfl
      _ = rest.foldl setAdd (acc ++ [a]) := by rw [setAdd, if_neg ha]
      _ = (acc ++ [a]) ++ rest := ih (acc ++ [a]) hnd2
      _ = acc ++ a :: rest := by simp

/-- C10: `to_dict` keeps the full player-block map but at most 8000
discovered coordinates, so a `to_dict`/`load_dict` round trip restores the
player blocks and, when at most 8000 coordinates are discovered, the
discovered set exactly; a larger discovered set is strictly shrunk. -/
theorem c10_save_roundtrip (w : World) (hnd : w.discovered.Nodup) :
    (w.discovered.length ≤ 8000 →
      (w.loadDict w.toDict).discovered = w.discovered ∧
      (w.loadDict w.toDict).playerBlocks = w.playerBlocks) ∧
    (8000 < w.discovered.length →
      (w.loadDict w.toDict).playerBlocks = w.playerBlocks ∧
      (w.loadDict w.toDict).discovered.length < w.discovered.length ∧
      ∀ p ∈ (w.loadDict w.toDict).discovered, p ∈ w.discovered) := by
  have hld : (w.loadDict w.toDict).discovered = w.discovered.take 8000 := by
    have hn : (w.discovered.take 8000).Nodup :=
      List.Nodup.sublist (List.take_sublist _ _) hnd
    show (w.toDict.discovered).foldl setAdd [] = _
    simpa using foldl_setAdd_eq_self (w.discovered.take 8000) []
      (by simpa using hn)
  constructor
  · intro hlen
    refine ⟨?_, rfl⟩
    rw [hld, List.take_of_length_le hlen]
  · intro hlen
    refine ⟨rfl, ?_, ?_⟩
    · rw [hld, List.length_take]
      omega
    · intro p hp
      rw [hld] at hp
      exact List.take_subset _ _ hp

/-- Closed instance of `c10_save_roundtrip` at a concrete world with two
discovered coordinates. -/
theorem c10_save_roundtrip_witness :
    (wSmall.loadDict wSmall.toDict).discovered = wSmall.discovered ∧
    (wSmall.loadDict wSmall.toDict).playerBlocks = wSmall.playerBlocks := by
  exact (c10_save_roundtrip wSmall (by decide)).1 (by decide)

theorem foldl_preserve {σ α : Type} (P : σ → Prop) (f : σ → α → σ)
    (l : List α) (s : σ) (h : P s) (hf : ∀ s a, P s → P (f s a)) :
    P (l.foldl f s) := by
  induction l generalizing s with
  | nil => exact h
  | cons a rest ih => exact ih _ (hf s a h)

theorem getChunk_spec (cfg : NoiseCfg) (seed : ℤ) (w : World) (cx cy : ℤ)
    (h : CacheOK cfg seed w) :
    (w.getChunk cx cy).1 = generateChunk cfg seed cx cy ∧
      CacheOK cfg seed (w.getChunk cx cy).2 := by
  obtain ⟨hc, hs, hmap⟩ := h
  cases hl : alookup w.chunks (cx, cy) with
  | some c =>
    have h1 : w.getChunk cx cy = (c, w) := by
      unfold World.getChunk
      rw [hl]
    rw [h1]
    have hv : c = generateChunk cfg seed cx cy := hmap (cx, cy) c hl
    exact ⟨hv, hc, hs, hmap⟩
  | none =>
    have h1 : w.getChunk cx cy =
        (generateChunk w.cfg w.seed cx cy,
          { w with chunks := aset w.chunks (cx, cy) (generateChunk w.cfg w.seed cx cy) }) := by
      unfold World.getChunk
      rw [hl]
    rw [h1]
    refine ⟨by rw [hc, hs], hc, hs, ?_⟩
    intro k c hk
    have hk2 : alookup
        (aset w.chunks (cx, cy) (generateChunk w.cfg w.seed cx cy)) k =
        some c := hk
    rw [alookup_aset] at hk2
    by_cases hkc : (cx, cy) = k
    · rw [if_pos hkc] at hk2
      cases hk2
      subst hkc
      rw [hc, hs]
    · rw [if_neg hkc] at hk2
      exact hmap _ _ hk2

theorem getTile_spec (cfg : NoiseCfg) (seed : ℤ) (w : World) (tx ty : ℤ)
    (h : CacheOK cfg seed w) :
    (w.getTile tx ty).1 = tileAt cfg seed tx ty ∧
      CacheOK cfg seed (w.getTile tx ty).2 := by
  have hgc := getChunk_spec cfg seed w (Int.fdiv tx 32) (Int.fdiv ty 32) h
  constructor
  · show ((w.getChunk (Int.fdiv tx 32) (Int.fdiv ty 32)).1.tiles.getD
        (ty % 32).toNat []).getD (tx % 32).toNat "" = _
    rw [hgc.1]
    rfl
  · exact hgc.2

theorem ensure_cacheOK (cfg : NoiseCfg) (seed : ℤ) (w : World) (x y : ℚ)
    (h : CacheOK cfg seed w) : CacheOK cfg seed (w.ensureChunksAround x y) := by
  refine foldl_preserve (CacheOK cfg seed) _ _ _ h ?_
  intro s a hs
  refine foldl_preserve (CacheOK cfg seed) _ _ _ hs ?_
  intro s2 a2 hs2
  exact (getChunk_spec cfg seed s2 _ _ hs2).2

theorem reaches_cacheOK (cfg : NoiseCfg) (seed : ℤ) (w : World)
    (h : Reaches cfg seed w) : CacheOK cfg seed w := by
  induction h with
  | init =>
    refine ⟨rfl, rfl, ?_⟩
    intro k c hk
    simp [World.init, alookup] at hk
  | getChunk w cx cy _ ih => exact (getChunk_spec cfg seed w cx cy ih).2
  | getTile w tx ty _ ih => exact (getTile_spec cfg seed w tx ty ih).2
  | ensure w x y _ ih => exact ensure_cacheOK cfg seed w x y ih
  | place w tx ty k _ ih => exact ih
  | remove w tx ty _ ih => exact ih

/-- C1: terrain generation is deterministic and order-independent.  In any
two worlds reachable from the same seed and noise configuration by
arbitrary sequences of chunk-generating and block-editing operations,
`biome_at` agrees, `get_chunk` produces identical tile grids and prop
lists (both equal to the pure per-coordinate generator output), and
`get_tile` agrees at every coordinate. -/
theorem c1_terrain_determinism (cfg : NoiseCfg) (seed : ℤ) (w1 w2 : World)
    (h1 : Reaches cfg seed w1) (h2 : Reaches cfg seed w2)
    (tx ty cx cy : ℤ) :
    biomeAt w1.cfg tx ty = biomeAt w2.cfg tx ty ∧
    (w1.getChunk cx cy).1 = (w2.getChunk cx cy).1 ∧
    (w1.getChunk cx cy).1 = generateChunk cfg seed cx cy ∧
    (w1.getTile tx ty).1 = (w2.getTile tx ty).1 := by
  have k1 := reaches_cacheOK cfg seed w1 h1
  have k2 := reaches_cacheOK cfg seed w2 h2
  refine ⟨by rw [k1.1, k2.1], ?_, ?_, ?_⟩
  · rw [(getChunk_spec cfg seed w1 cx cy k1).1, (getChunk_spec cfg seed w2 cx cy k2).1]
  · exact (getChunk_spec cfg seed w1 cx cy k1).1
  · rw [(getTile_spec cfg seed w1 tx ty k1).1, (getTile_spec cfg seed w2 tx ty k2).1]

/-- Closed instance of `c1_terrain_determinism`: a fresh world versus a
world that already generated chunk (0, 0), compared at tile (1, 2). -/
theorem c1_terrain_determinism_witness :
    biomeAt (World.init cfgZero 42).cfg 1 2 =
      biomeAt (((World.init cfgZero 42).getChunk 0 0).2).cfg 1 2 ∧
    ((World.init cfgZero 42).getChunk 0 0).1 =
      ((((World.init cfgZero 42).getChunk 0 0).2).getChunk 0 0).1 ∧
    ((World.init cfgZero 42).getChunk 0 0).1 = generateChunk cfgZero 42 0 0 ∧
    ((World.init cfgZero 42).getTile 1 2).1 =
      ((((World.init cfgZero 42).getChunk 0 0).2).getTile 1 2).1 :=
  c1_terrain_determinism cfgZero 42 _ _ Reaches.init
    (Reaches.getChunk _ 0 0 Reaches.init) 1 2 0 0

theorem eLt_iff (a b : ℕ × ℤ × ℤ) : eLt a b = true ↔
    (a.1 < b.1 ∨ (a.1 = b.1 ∧ (a.2.1 < b.2.1 ∨ (a.2.1 = b.2.1 ∧ a.2.2 < b.2.2)))) := by
  simp [eLt]

theorem eLt_irrefl (a : ℕ × ℤ × ℤ) : eLt a a = false := by
  rw [Bool.eq_false_iff, Ne, eLt_iff]
  omega

theorem eLt_trans {a b c : ℕ × ℤ × ℤ} (h1 : eLt a b = true)
    (h2 : eLt b c = true) : eLt a c = true := by
  rw [eLt_iff] at h1 h2 ⊢
  omega

theorem eLt_notlt_chain {a b c : ℕ × ℤ × ℤ} (h1 : eLt a b = false)
    (h2 : eLt b c = false) : eLt a c = false := by
  rw [Bool.eq_false_iff, Ne, eLt_iff] at h1 h2 ⊢
  omega

theorem eLt_fst_le {a b : ℕ × ℤ × ℤ} (h : eLt a b = false) : b.1 ≤ a.1 := by
  rw [Bool.eq_false_iff, Ne, eLt_iff] at h
  omega

theorem foldlMin_mem (l : List (ℕ × ℤ × ℤ)) (a : ℕ × ℤ × ℤ) :
    l.foldl (fun m x => if eLt x m then x else m) a ∈ a :: l := by
  induction l generalizing a with
  | nil => simp
  | cons b rest ih =>
    simp only [List.foldl_cons]
    by_cases hb : eLt b a
    · rw [if_pos hb]
      rcases List.mem_cons.mp (ih b) with h | h
      · rw [h]
        simp
      · exact List.mem_cons_of_mem a (List.mem_cons_of_mem b h)
    · rw [if_neg hb]
      rcases List.mem_cons.mp (ih a) with h | h
      · rw [h]
        simp
      · exact List.mem_cons_of_mem a (List.mem_cons_of_mem b h)

theorem foldlMin_min (l : List (ℕ × ℤ × ℤ)) (a : ℕ × ℤ × ℤ) :
    ∀ x ∈ a :: l, eLt x (l.foldl (fun m x => if eLt x m then x else m) a) = false := by
  induction l generalizing a with
  | nil =>
    intro x hx
    simp only [List.mem_singleton] at hx
    subst hx
    exact eLt_irrefl x
  | cons b rest ih =>
    intro x hx
    simp only [List.foldl_cons]
    by_cases hb : eLt b a
    · rw [if_pos hb]
      rcases List.mem_cons.mp hx with hxa | hx2
      · rw [hxa]
        have hbr : eLt b (rest.foldl (fun m y => if eLt y m then y else m) b) = false :=
          ih b b (List.mem_cons_self b rest)
        cases hres : eLt a (rest.foldl (fun m y => if eLt y m then y else m) b) with
        | false => rfl
        | true =>
          have htr := eLt_trans hb hres
          rw [hbr] at htr
          cases htr
      · exact ih b x hx2
    · rw [if_neg hb]
      have hbfalse : eLt b a = false := by
        cases h : eLt b a
        · rfl
        · exact absurd h hb
      rcases List.mem_cons.mp hx with hxa | hx2
      · rw [hxa]
        exact ih a a (List.mem_cons_self a rest)
      · rcases List.mem_cons.mp hx2 with hxb | hx3
        · rw [hxb]
          exact eLt_notlt_chain hbfalse (ih a a (List.mem_cons_self a rest))
        · exact ih a x (List.mem_cons_of_mem a hx3)

theorem popMin_spec (l : List (ℕ × ℤ × ℤ)) (e : ℕ × ℤ × ℤ)
    (rest : List (ℕ × ℤ × ℤ)) (h : popMin l = some (e, rest)) :
    e ∈ l ∧ rest = l.erase e ∧ ∀ x ∈ l, eLt x e = false := by
  cases l with
  | nil => simp [popMin] at h
  | cons a tl =>
    simp only [popMin] at h
    have h2 := Option.some.inj h
    have he : tl.foldl (fun m x => if eLt x m then x else m) a = e :=
      congrArg Prod.fst h2
    have hr : (a :: tl).erase (tl.foldl (fun m x => if eLt x m then x else m) a)
        = rest := congrArg Prod.snd h2
    subst he
    refine ⟨foldlMin_mem tl a, hr.symm, foldlMin_min tl a⟩

theorem mem_neighbors_ne {n c : ℤ × ℤ} (h : n ∈ neighbors c) : n ≠ c := by
  simp only [neighbors, List.mem_cons, List.mem_singleton,
    List.not_mem_nil, or_false] at h
  rcases h with rfl | rfl | rfl | rfl <;>
    (intro he
     have h1 := congrArg Prod.fst he
     have h2 := congrArg Prod.snd he
     simp only at h1 h2
     omega)

theorem foldl_preserve_mem {σ α : Type} (P : σ → Prop) (f : σ → α → σ)
    (l : List α) : ∀ s, P s → (∀ s a, a ∈ l → P s → P (f s a)) →
    P (l.foldl f s) := by
  induction l with
  | nil => intro s h _; exact h
  | cons a rest ih =>
    intro s h hf
    exact ih (f s a) (hf s a (List.mem_cons_self a rest) h)
      (fun s2 b hb h2 => hf s2 b (List.mem_cons_of_mem a hb) h2)

theorem relaxOne_spec (solid : ℤ × ℤ → Bool) (start goal cur : ℤ × ℤ)
    (st : AState) (n : ℤ × ℤ) (hn : n ∈ neighbors cur)
    (hinv : AInv solid start st) (gcur : ℕ)
    (hg : st.gScore cur = some gcur) :
    AInv solid start (relaxOne solid goal cur st n) ∧
      (relaxOne solid goal cur st n).gScore cur = some gcur := by
  have hne : n ≠ cur := mem_neighbors_ne hn
  unfold relaxOne
  by_cases hs : solid n = true
  · rw [if_pos hs]
    exact ⟨hinv, hg⟩
  · rw [if_neg hs]
    simp only [hg, Option.getD_some]
    by_cases hlt : gcur + 1 < (st.gScore n).getD (10 ^ 9)
    · rw [if_pos hlt]
      have hnstart : n ≠ start := by
        intro h
        subst h
        rw [hinv.gStart] at hlt
        simp at hlt
      refine ⟨⟨?_, ?_, ?_, ?_, ?_⟩, ?_⟩
      all_goals dsimp only
      · show (if start = n then some (gcur + 1) else st.gScore start) = some 0
        rw [if_neg (Ne.symm hnstart), hinv.gStart]
      · show (if start = n then some cur else st.cameFrom start) = none
        rw [if_neg (Ne.symm hnstart), hinv.cfStart]
      · intro m c hmc
        by_cases hm : m = n
        · subst hm
          rw [if_pos rfl] at hmc
          cases hmc
          refine ⟨hn, Bool.eq_false_iff.mpr hs, gcur + 1, gcur, ?_, ?_, le_refl _⟩
          · show (if m = m then some (gcur + 1) else st.gScore m) = some (gcur + 1)
            rw [if_pos rfl]
          · show (if cur = m then some (gcur + 1) else st.gScore cur) = some gcur
            rw [if_neg (Ne.symm hne), hg]
        · rw [if_neg hm] at hmc
          obtain ⟨hnb, hsol, gm, gc, hgm, hgc, hle⟩ := hinv.cfProp m c hmc
          refine ⟨hnb, hsol, gm, ?_⟩
          by_cases hc : c = n
          · subst hc
            rw [hgc] at hlt
            refine ⟨gcur + 1, ?_, ?_, ?_⟩
            · show (if m = c then some (gcur + 1) else st.gScore m) = some gm
              rw [if_neg hm, hgm]
            · show (if c = c then some (gcur + 1) else st.gScore c) = some (gcur + 1)
              rw [if_pos rfl]
            · simp only [Option.getD_some] at hlt
              omega
          · refine ⟨gc, ?_, ?_, hle⟩
            · show (if m = n then some (gcur + 1) else st.gScore m) = some gm
              rw [if_neg hm, hgm]
            · show (if c = n then some (gcur + 1) else st.gScore c) = some gc
              rw [if_neg hc, hgc]
      · intro m gm hgm
        by_cases hm : m = n
        · subst hm
          right
          show (if m = m then some cur else st.cameFrom m) ≠ none
          rw [if_pos rfl]
          simp
        · rw [show (if m = n then some (gcur + 1) else st.gScore m) = st.gScore m
            from if_neg hm] at hgm
          rcases hinv.gDom m gm hgm with h | h
          · exact Or.inl h
          · right
            show (if m = n then some cur else st.cameFrom m) ≠ none
            rw [if_neg hm]
            exact h
      · intro e he
        rcases List.mem_cons.mp he with rfl | he2
        · refine ⟨gcur + 1, ?_⟩
          show (if n = n then some (gcur + 1) else st.gScore n) = some (gcur + 1)
          rw [if_pos rfl]
        · obtain ⟨g0, hg0⟩ := hinv.openDom e he2
          by_cases hme : e.2 = n
          · exact ⟨gcur + 1, by rw [if_pos hme]⟩
          · exact ⟨g0, by rw [if_neg hme, hg0]⟩
      · show (if cur = n then some (gcur + 1) else st.gScore cur) = some gcur
        rw [if_neg (Ne.symm hne), hg]
    · rw [if_neg hlt]
      exact ⟨hinv, hg⟩

theorem expand_spec (solid : ℤ × ℤ → Bool) (start goal cur : ℤ × ℤ)
    (st : AState) (hinv : AInv solid start st) (gcur : ℕ)
    (hg : st.gScore cur = some gcur) :
    AInv solid start (expand solid goal cur st) := by
  have h := foldl_preserve_mem
    (fun s => AInv solid start s ∧ s.gScore cur = some gcur)
    (relaxOne solid goal cur) (neighbors cur) st ⟨hinv, hg⟩
    (fun s a ha hp => relaxOne_spec solid start goal cur s a ha hp.1 gcur hp.2)
  exact h.1

theorem reconstruct_spec (solid : ℤ × ℤ → Bool) (start : ℤ × ℤ)
    (st : AState) (hinv : AInv solid start st) :
    ∀ fuel gn n, st.gScore n = some gn → gn ≤ fuel → ∀ acc, ∃ pref,
      reconstruct st.cameFrom fuel n acc = pref ++ acc ∧
      pref.head? = some start ∧ pref.getLast? = some n ∧
      List.Chain' (fun a b => b ∈ neighbors a) pref ∧
      (∀ c ∈ pref.tail, solid c = false) ∧ pref.length ≤ gn + 1 := by
  intro fuel
  induction fuel with
  | zero =>
    intro gn n hgn hle acc
    have hgn0 : gn = 0 := Nat.le_zero.mp hle
    subst hgn0
    have hcf : st.cameFrom n = none := by
      cases hc : st.cameFrom n with
      | none => rfl
      | some c =>
        obtain ⟨_, _, gn2, gc, hgn2, _, hlt⟩ := hinv.cfProp n c hc
        rw [hgn] at hgn2
        cases hgn2
        omega
    have hstart : n = start := by
      rcases hinv.gDom n 0 hgn with h | h
      · exact h
      · exact absurd hcf h
    exact ⟨[n], rfl, by simp [hstart], by simp, by simp, by simp, by simp⟩
  | succ fuel ih =>
    intro gn n hgn hle acc
    cases hc : st.cameFrom n with
    | none =>
      have hstart : n = start := by
        rcases hinv.gDom n gn hgn with h | h
        · exact h
        · exact absurd hc h
      have hstep : reconstruct st.cameFrom (fuel + 1) n acc = [n] ++ acc := by
        show (match st.cameFrom n with
              | none => n :: acc
              | some prev => reconstruct st.cameFrom fuel prev (n :: acc)) =
          [n] ++ acc
        rw [hc]
        rfl
      exact ⟨[n], hstep, by simp [hstart], by simp, by simp, by simp, by simp⟩
    | some c =>
      obtain ⟨hnb, hns, gn2, gc, hgn2, hgc, hlt⟩ := hinv.cfProp n c hc
      rw [hgn] at hgn2
      have hgneq : gn2 = gn := (Option.some.inj hgn2).symm
      subst hgneq
      obtain ⟨pref, heq, hhead, hlast, hchain, htail, hlen⟩ :=
        ih gc c hgc (by omega) (n :: acc)
      have hne : pref ≠ [] := by
        intro h
        rw [h] at hhead
        cases hhead
      have hstep : reconstruct st.cameFrom (fuel + 1) n acc =
          reconstruct st.cameFrom fuel c (n :: acc) := by
        show (match st.cameFrom n with
              | none => n :: acc
              | some prev => reconstruct st.cameFrom fuel prev (n :: acc)) = _
        rw [hc]
      refine ⟨pref ++ [n], ?_, ?_, ?_, ?_, ?_, ?_⟩
      · rw [hstep, heq]
        simp
      · rw [List.head?_append, hhead]
        rfl
      · exact List.getLast?_concat pref
      · rw [List.chain'_append]
        refine ⟨hchain, List.chain'_singleton n, ?_⟩
        intro x hx y hy
        rw [hlast] at hx
        simp only [Option.mem_def, Option.some.injEq, List.head?_cons] at hx hy
        rw [← hx, ← hy]
        exact hnb
      · intro z hz
        have htl : (pref ++ [n]).tail = pref.tail ++ [n] := by
          cases pref with
          | nil => exact absurd rfl hne
          | cons p ps => simp
        rw [htl] at hz
        rcases List.mem_append.mp hz with h | h
        · exact htail z h
        · simp only [List.mem_singleton] at h
          rw [h]
          exact hns
      · rw [List.length_append, List.length_singleton]
        omega

theorem astarInit_inv (solid : ℤ × ℤ → Bool) (start : ℤ × ℤ) :
    AInv solid start (astarInit start) := by
  refine ⟨?_, rfl, ?_, ?_, ?_⟩
  · show (if start = start then some 0 else none) = some 0
    rw [if_pos rfl]
  · intro n c h
    cases h
  · intro n gn h
    by_cases hn : n = start
    · exact Or.inl hn
    · rw [show (astarInit start).gScore n = (if n = start then some 0 else none)
        from rfl, if_neg hn] at h
      cases h
  · intro e he
    simp only [astarInit, List.mem_singleton] at he
    refine ⟨0, ?_⟩
    rw [he]
    show (if start = start then some 0 else none) = some 0
    rw [if_pos rfl]

theorem astarLoop_sound (solid : ℤ × ℤ → Bool) (start goal : ℤ × ℤ) :
    ∀ fuel st, AInv solid start st →
      (astarLoop solid goal fuel st).1 = [] ∨
      IsStepPath solid start goal (astarLoop solid goal fuel st).1 := by
  intro fuel
  induction fuel with
  | zero =>
    intro st _
    left
    rfl
  | succ fuel ih =>
    intro st hinv
    cases hp : popMin st.openSet with
    | none =>
      left
      have hred : astarLoop solid goal (fuel + 1) st = ([], 0) := by
        show (match popMin st.openSet with
              | none => (([] : List (ℤ × ℤ)), 0)
              | some (e, rest) =>
                if e.2 = goal then
                  (reconstruct st.cameFrom ((st.gScore e.2).getD 0 + 1) e.2 [], 1)
                else
                  let st2 : AState :=
                    { openSet := rest, cameFrom := st.cameFrom, gScore := st.gScore }
                  let r := astarLoop solid goal fuel (expand solid goal e.2 st2)
                  (r.1, r.2 + 1)) = ([], 0)
        rw [hp]
      rw [hred]
    | some er =>
      obtain ⟨e, rest⟩ := er
      obtain ⟨hmem, hrest, hmin⟩ := popMin_spec st.openSet e rest hp
      have hred : astarLoop solid goal (fuel + 1) st =
          (if e.2 = goal then
            (reconstruct st.cameFrom ((st.gScore e.2).getD 0 + 1) e.2 [], 1)
          else
            let st2 : AState :=
              { openSet := rest, cameFrom := st.cameFrom, gScore := st.gScore }
            let r := astarLoop solid goal fuel (expand solid goal e.2 st2)
            (r.1, r.2 + 1)) := by
        show (match popMin st.openSet with
              | none => (([] : List (ℤ × ℤ)), 0)
              | some (e, rest) =>
                if e.2 = goal then
                  (reconstruct st.cameFrom ((st.gScore e.2).getD 0 + 1) e.2 [], 1)
                else
                  let st2 : AState :=
                    { openSet := rest, cameFrom := st.cameFrom, gScore := st.gScore }
                  let r := astarLoop solid goal fuel (expand solid goal e.2 st2)
                  (r.1, r.2 + 1)) = _
        rw [hp]
      obtain ⟨g0, hg0⟩ := hinv.openDom e hmem
      by_cases hgoal : e.2 = goal
      · right
        rw [hred, if_pos hgoal]
        obtain ⟨pref, heq, hh, hl, hch, ht, _⟩ :=
          reconstruct_spec solid start st hinv (g0 + 1) g0 e.2 hg0 (by omega) []
        show IsStepPath solid start goal
          (reconstruct st.cameFrom ((st.gScore e.2).getD 0 + 1) e.2 [])
        rw [hg0]
        simp only [Option.getD_some]
        rw [heq, List.append_nil]
        exact ⟨hh, hgoal ▸ hl, hch, ht⟩
      · rw [hred, if_neg hgoal]
        have hinv2 : AInv solid start
            { openSet := rest, cameFrom := st.cameFrom, gScore := st.gScore } := by
          refine ⟨hinv.gStart, hinv.cfStart, hinv.cfProp, hinv.gDom, ?_⟩
          intro e2 he2
          refine hinv.openDom e2 ?_
          rw [hrest] at he2
          exact List.mem_of_mem_erase he2
        have hinv3 := expand_spec solid start goal e.2 _ hinv2 g0 hg0
        rcases ih (expand solid goal e.2
            { openSet := rest, cameFrom := st.cameFrom, gScore := st.gScore })
            hinv3 with h | h
        · left
          exact h
        · right
          exact h

/-- C3: for every start, goal, solidity predicate and expansion budget,
`astar_path` returns `[start]` when start equals goal, and otherwise
either a path that begins at start, ends at goal, steps only between
4-adjacent tiles all of which (the start excepted) are non-solid — or the
empty sequence, which is what it returns whenever the goal was not
reached within the budget of popped nodes. -/
theorem c3_astar_soundness (solid : ℤ × ℤ → Bool) (start goal : ℤ × ℤ)
    (maxNodes : ℕ) :
    (start = goal → astarPath solid start goal maxNodes = [start]) ∧
    (astarPath solid start goal maxNodes = [] ∨
      IsStepPath solid start goal (astarPath solid start goal maxNodes)) := by
  constructor
  · intro h
    unfold astarPath astarRun
    rw [if_pos h]
  · unfold astarPath astarRun
    by_cases h : start = goal
    · rw [if_pos h]
      right
      exact ⟨rfl, by simp [h], List.chain'_singleton start, by simp⟩
    · rw [if_neg h]
      exact astarLoop_sound solid start goal maxNodes (astarInit start)
        (astarInit_inv solid start)

/-- Closed instance of `c3_astar_soundness`: start equal to goal yields
the singleton path. -/
theorem c3_astar_soundness_witness :
    astarPath (fun _ => false) (0, 0) (0, 0) 300 = [(0, 0)] :=
  (c3_astar_soundness (fun _ => false) (0, 0) (0, 0) 300).1 rfl

theorem manhattan_self (a : ℤ × ℤ) : manhattan a a = 0 := by
  simp [manhattan]

theorem manhattan_eq_zero {a b : ℤ × ℤ} (h : manhattan a b = 0) : a = b := by
  simp only [manhattan] at h
  rw [Prod.ext_iff]
  omega

theorem manhattan_triangle (a b c : ℤ × ℤ) :
    manhattan a c ≤ manhattan a b + manhattan b c := by
  simp only [manhattan]
  omega

theorem manhattan_neighbor {a b : ℤ × ℤ} (h : b ∈ neighbors a) :
    manhattan a b = 1 := by
  simp only [neighbors, List.mem_cons, List.mem_singleton,
    List.not_mem_nil, or_false] at h
  rcases h with rfl | rfl | rfl | rfl <;> (simp only [manhattan]; omega)

theorem neighbors_nodup (c : ℤ × ℤ) : (neighbors c).Nodup := by
  simp only [neighbors]
  refine List.nodup_cons.mpr ⟨?_, List.nodup_cons.mpr ⟨?_, List.nodup_cons.mpr
    ⟨?_, List.nodup_singleton _⟩⟩⟩ <;>
    (simp only [List.mem_cons, List.mem_singleton, List.not_mem_nil, or_false,
      Prod.mk.injEq, not_or]
     repeat constructor) <;> omega

theorem geo_succ (start goal : ℤ × ℤ) (i : ℕ) :
    geo start goal (i + 1) =
      (if (geo start goal i).1 ≠ goal.1 then
        (stepToward (geo start goal i).1 goal.1, (geo start goal i).2)
      else ((geo start goal i).1, stepToward (geo start goal i).2 goal.2)) :=
  rfl

theorem geo_spec (start goal : ℤ × ℤ) :
    ∀ i, i ≤ manhattan start goal →
      manhattan start (geo start goal i) = i ∧
      manhattan (geo start goal i) goal = manhattan start goal - i := by
  obtain ⟨sx, sy⟩ := start
  obtain ⟨gx, gy⟩ := goal
  intro i
  induction i with
  | zero =>
    intro _
    exact ⟨manhattan_self _, rfl⟩
  | succ i ih =>
    intro hle
    obtain ⟨m1, m2⟩ := ih (by omega)
    rw [geo_succ]
    rcases hpq : geo (sx, sy) (gx, gy) i with ⟨px, py⟩
    rw [hpq] at m1 m2
    simp only [manhattan] at m1 m2 hle ⊢
    unfold stepToward
    split_ifs <;> ((try dsimp only) <;> omega)

theorem geo_adj (start goal : ℤ × ℤ) :
    ∀ i, i + 1 ≤ manhattan start goal →
      geo start goal (i + 1) ∈ neighbors (geo start goal i) := by
  obtain ⟨sx, sy⟩ := start
  obtain ⟨gx, gy⟩ := goal
  intro i hle
  obtain ⟨m1, m2⟩ := geo_spec (sx, sy) (gx, gy) i (by omega)
  rw [geo_succ]
  rcases hpq : geo (sx, sy) (gx, gy) i with ⟨px, py⟩
  rw [hpq] at m1 m2
  simp only [manhattan] at m1 m2 hle
  unfold stepToward
  split_ifs <;>
    (try simp only [neighbors, List.mem_cons, List.mem_singleton,
      List.not_mem_nil, or_false, Prod.mk.injEq, or_true, true_or,
      and_true, true_and]) <;>
    (try dsimp only at *) <;> omega

theorem geo_inj (start goal : ℤ × ℤ) {i j : ℕ}
    (hi : i ≤ manhattan start goal) (hj : j ≤ manhattan start goal)
    (h : geo start goal i = geo start goal j) : i = j := by
  have h1 := (geo_spec start goal i hi).1
  have h2 := (geo_spec start goal j hj).1
  rw [h] at h1
  omega

theorem geo_last (start goal : ℤ × ℤ) :
    geo start goal (manhattan start goal) = goal := by
  have h := (geo_spec start goal (manhattan start goal) le_rfl).2
  rw [Nat.sub_self] at h
  exact manhattan_eq_zero h

theorem chain_path_length (p : List (ℤ × ℤ))
    (hch : List.Chain' (fun a b => b ∈ neighbors a) p) :
    ∀ a b, p.head? = some a → p.getLast? = some b →
      manhattan a b + 1 ≤ p.length := by
  induction p with
  | nil =>
    intro a b h
    cases h
  | cons x xs ih =>
    intro a b hh hl
    have hax : a = x := by
      simp only [List.head?_cons, Option.some.injEq] at hh
      exact hh.symm
    subst hax
    cases xs with
    | nil =>
      simp only [List.getLast?_singleton, Option.some.injEq] at hl
      subst hl
      simp [manhattan_self]
    | cons y ys =>
      obtain ⟨hxy, hch2⟩ := List.chain'_cons.mp hch
      have hl2 : (y :: ys).getLast? = some b := by
        rw [List.getLast?_cons_cons] at hl
        exact hl
      have hrec := ih hch2 y b rfl hl2
      have htri := manhattan_triangle a y b
      have hadj := manhattan_neighbor hxy
      simp only [List.length_cons] at hrec ⊢
      omega

theorem relaxOne_cases (solid : ℤ × ℤ → Bool) (goal cur : ℤ × ℤ)
    (st : AState) (n : ℤ × ℤ) :
    relaxOne solid goal cur st n = st ∨
    (solid n = false ∧
     (st.gScore cur).getD (10 ^ 9) + 1 < (st.gScore n).getD (10 ^ 9) ∧
     relaxOne solid goal cur st n =
       { openSet := ((st.gScore cur).getD (10 ^ 9) + 1 + manhattan n goal, n)
           :: st.openSet,
         cameFrom := fun k => if k = n then some cur else st.cameFrom k,
         gScore := fun k =>
           if k = n then some ((st.gScore cur).getD (10 ^ 9) + 1)
           else st.gScore k }) := by
  unfold relaxOne
  by_cases hs : solid n = true
  · left
    rw [if_pos hs]
  · rw [if_neg hs]
    by_cases hlt : (st.gScore cur).getD (10 ^ 9) + 1 < (st.gScore n).getD (10 ^ 9)
    · right
      exact ⟨Bool.eq_false_iff.mpr hs, hlt, by rw [if_pos hlt]⟩
    · left
      rw [if_neg hlt]

theorem relaxOne_glb (solid : ℤ × ℤ → Bool) (start goal cur : ℤ × ℤ)
    (st : AState) (n : ℤ × ℤ) (hn : n ∈ neighbors cur) (gcur : ℕ)
    (hg : st.gScore cur = some gcur) (hglb : GLB start st) :
    GLB start (relaxOne solid goal cur st n) := by
  rcases relaxOne_cases solid goal cur st n with he | ⟨_, _, he⟩
  · rw [he]
    exact hglb
  · rw [he]
    intro p k hk
    dsimp only at hk
    by_cases hp : p = n
    · rw [if_pos hp, hg] at hk
      simp only [Option.getD_some, Option.some.injEq] at hk
      have h1 : manhattan start cur ≤ gcur := hglb cur gcur hg
      have h2 : manhattan cur n = 1 := manhattan_neighbor hn
      have h3 := manhattan_triangle start cur n
      rw [hp]
      omega
    · rw [if_neg hp] at hk
      exact hglb p k hk

theorem relaxOne_entryf (solid : ℤ × ℤ → Bool) (start goal cur : ℤ × ℤ)
    (st : AState) (n : ℤ × ℤ) (hef : EntryF start goal st) :
    EntryF start goal (relaxOne solid goal cur st n) := by
  rcases relaxOne_cases solid goal cur st n with he | ⟨_, hlt, he⟩
  · rw [he]
    exact hef
  · rw [he]
    intro e he2
    dsimp only at he2 ⊢
    rcases List.mem_cons.mp he2 with hnew | hold
    · right
      refine ⟨(st.gScore cur).getD (10 ^ 9) + 1, ?_, ?_⟩
      · rw [hnew]
        dsimp only
        rw [if_pos rfl]
      · rw [hnew]
    · rcases hef e hold with hl | ⟨gc, hgc, hb⟩
      · exact Or.inl hl
      · right
        by_cases hp : e.2 = n
        · refine ⟨(st.gScore cur).getD (10 ^ 9) + 1, by rw [if_pos hp], ?_⟩
          rw [hp] at hgc hb
          rw [hgc] at hlt
          simp only [Option.getD_some] at hlt
          rw [hp]
          omega
        · exact ⟨gc, by rw [if_neg hp]; exact hgc, hb⟩

theorem relaxOne_maxonly (solid : ℤ × ℤ → Bool) (start goal cur : ℤ × ℤ)
    (st : AState) (n : ℤ × ℤ) (m gcur : ℕ)
    (hg : st.gScore cur = some gcur)
    (hne : n ≠ geo start goal (gcur + 1))
    (hmax : MaxOnly start goal m st) :
    MaxOnly start goal m (relaxOne solid goal cur st n) := by
  rcases relaxOne_cases solid goal cur st n with he | ⟨_, _, he⟩
  · rw [he]
    exact hmax
  · rw [he]
    intro j hj hgj
    dsimp only at hgj
    by_cases hp : geo start goal j = n
    · rw [if_pos hp, hg] at hgj
      simp only [Option.getD_some, Option.some.injEq] at hgj
      rw [← hgj] at hp
      exact absurd hp.symm hne
    · rw [if_neg hp] at hgj
      exact hmax j hj hgj

theorem relaxOne_opt (solid : ℤ × ℤ → Bool) (start goal cur : ℤ × ℤ)
    (st : AState) (n : ℤ × ℤ) (hn : n ∈ neighbors cur) (gcur : ℕ)
    (hg : st.gScore cur = some gcur) (hglb : GLB start st)
    (hopt : OptInv start goal st) :
    OptInv start goal (relaxOne solid goal cur st n) := by
  rcases relaxOne_cases solid goal cur st n with he | ⟨hsol, hlt, he⟩
  · rw [he]
    exact hopt
  · have hstep : manhattan start n ≤ gcur + 1 := by
      have h1 : manhattan start cur ≤ gcur := hglb cur gcur hg
      have h2 : manhattan cur n = 1 := manhattan_neighbor hn
      have h3 := manhattan_triangle start cur n
      omega
    rw [he]
    rcases hopt with hleft | ⟨m, hm, hgm, hmax, hent⟩
    · left
      dsimp only
      by_cases hgoaln : goal = n
      · exfalso
        rw [← hgoaln] at hlt
        rw [hleft, hg] at hlt
        simp only [Option.getD_some] at hlt
        rw [← hgoaln] at hstep
        omega
      · rw [if_neg hgoaln]
        exact hleft
    · have hgmn : geo start goal m ≠ n := by
        intro hp
        rw [← hp, hgm, hg] at hlt
        simp only [Option.getD_some] at hlt
        have hdm : manhattan start (geo start goal m) = m :=
          (geo_spec start goal m (by omega)).1
        rw [← hp] at hstep
        omega
      by_cases hjcase : n = geo start goal (gcur + 1) ∧
          gcur + 1 ≤ manhattan start goal
      · obtain ⟨hgeoeq, hjle⟩ := hjcase
        by_cases hDeq : gcur + 1 = manhattan start goal
        · left
          dsimp only
          have hng : goal = n := by
            rw [hgeoeq, hDeq, geo_last]
          rw [if_pos hng, hg]
          simp only [Option.getD_some]
          rw [hDeq]
        · right
          by_cases hcmp : gcur + 1 ≤ m
          · refine ⟨m, hm, ?_, ?_, List.mem_cons_of_mem _ hent⟩
            · dsimp only
              by_cases hmn : geo start goal m = n
              · have hminj : m = gcur + 1 :=
                  geo_inj start goal (by omega) hjle (by rw [hmn, hgeoeq])
                rw [if_pos hmn, hg]
                simp only [Option.getD_some]
                rw [hminj]
              · rw [if_neg hmn]
                exact hgm
            · intro j hj hgj
              dsimp only at hgj
              by_cases hp : geo start goal j = n
              · rw [if_pos hp, hg] at hgj
                simp only [Option.getD_some, Option.some.injEq] at hgj
                omega
              · rw [if_neg hp] at hgj
                exact hmax j hj hgj
          · refine ⟨gcur + 1, by omega, ?_, ?_, ?_⟩
            · dsimp only
              rw [if_pos hgeoeq.symm, hg]
              simp only [Option.getD_some]
            · intro j hj hgj
              dsimp only at hgj
              by_cases hp : geo start goal j = n
              · rw [if_pos hp, hg] at hgj
                simp only [Option.getD_some, Option.some.injEq] at hgj
                omega
              · rw [if_neg hp] at hgj
                exact le_trans (hmax j hj hgj) (by omega)
            · dsimp only
              rw [hg]
              simp only [Option.getD_some]
              rw [← hgeoeq]
              exact List.mem_cons_self _ _
      · right
        refine ⟨m, hm, ?_, ?_, List.mem_cons_of_mem _ hent⟩
        · dsimp only
          rw [if_neg hgmn]
          exact hgm
        · intro j hj hgj
          dsimp only at hgj
          by_cases hp : geo start goal j = n
          · rw [if_pos hp, hg] at hgj
            simp only [Option.getD_some, Option.some.injEq] at hgj
            exact absurd ⟨by rw [← hp, hgj], by omega⟩ hjcase
          · rw [if_neg hp] at hgj
            exact hmax j hj hgj

theorem relaxOne_establish (solid : ℤ × ℤ → Bool) (start goal cur : ℤ × ℤ)
    (st : AState) (m : ℕ)
    (hD : manhattan start goal < 10 ^ 9)
    (hm : m + 1 ≤ manhattan start goal)
    (hsol : solid (geo start goal (m + 1)) = false)
    (hg : st.gScore cur = some m)
    (hglb : GLB start st)
    (hmax : MaxOnly start goal m st) :
    OptInv start goal (relaxOne solid goal cur st (geo start goal (m + 1))) := by
  have hlt : (st.gScore cur).getD (10 ^ 9) + 1 <
      (st.gScore (geo start goal (m + 1))).getD (10 ^ 9) := by
    rw [hg]
    simp only [Option.getD_some]
    cases hv : st.gScore (geo start goal (m + 1)) with
    | none =>
      simp only [Option.getD_none]
      omega
    | some k =>
      simp only [Option.getD_some]
      have hk1 : manhattan start (geo start goal (m + 1)) ≤ k := hglb _ _ hv
      rw [(geo_spec start goal (m + 1) hm).1] at hk1
      have hk2 : k ≠ m + 1 := by
        intro h
        subst h
        have := hmax (m + 1) hm hv
        omega
      omega
  unfold relaxOne
  rw [if_neg (by rw [hsol]; exact Bool.false_ne_true), if_pos hlt]
  by_cases hDeq : m + 1 = manhattan start goal
  · left
    dsimp only
    have hng : goal = geo start goal (m + 1) := by
      rw [hDeq, geo_last]
    rw [if_pos hng, hg]
    simp only [Option.getD_some]
    rw [hDeq]
  · right
    refine ⟨m + 1, by omega, ?_, ?_, ?_⟩
    · dsimp only
      rw [if_pos rfl, hg]
      simp only [Option.getD_some]
    · intro j hj hgj
      dsimp only at hgj
      by_cases hp : geo start goal j = geo start goal (m + 1)
      · have := geo_inj start goal hj hm hp
        omega
      · rw [if_neg hp] at hgj
        exact le_trans (hmax j hj hgj) (by omega)
    · dsimp only
      rw [hg]
      simp only [Option.getD_some]
      exact List.mem_cons_self _ _

theorem expand_preserves_opt (solid : ℤ × ℤ → Bool) (start goal cur : ℤ × ℤ)
    (st : AState) (gcur : ℕ) (hinv : AInv solid start st)
    (hg : st.gScore cur = some gcur) (hglb : GLB start st)
    (hef : EntryF start goal st) (hopt : OptInv start goal st) :
    AInv solid start (expand solid goal cur st) ∧
    GLB start (expand solid goal cur st) ∧
    EntryF start goal (expand solid goal cur st) ∧
    OptInv start goal (expand solid goal cur st) := by
  have h := foldl_preserve_mem
    (fun s => AInv solid start s ∧ s.gScore cur = some gcur ∧ GLB start s ∧
      EntryF start goal s ∧ OptInv start goal s)
    (relaxOne solid goal cur) (neighbors cur) st ⟨hinv, hg, hglb, hef, hopt⟩
    (fun s a ha hp =>
      ⟨(relaxOne_spec solid start goal cur s a ha hp.1 gcur hp.2.1).1,
       (relaxOne_spec solid start goal cur s a ha hp.1 gcur hp.2.1).2,
       relaxOne_glb solid start goal cur s a ha gcur hp.2.1 hp.2.2.1,
       relaxOne_entryf solid start goal cur s a hp.2.2.2.1,
       relaxOne_opt solid start goal cur s a ha gcur hp.2.1 hp.2.2.1
         hp.2.2.2.2⟩)
  exact ⟨h.1, h.2.2.1, h.2.2.2.1, h.2.2.2.2⟩

theorem expand_establish (solid : ℤ × ℤ → Bool) (start goal : ℤ × ℤ)
    (st : AState) (m : ℕ)
    (hD : manhattan start goal < 10 ^ 9)
    (hopen : ∀ p : ℤ × ℤ, solid p = false)
    (hm1 : m + 1 ≤ manhattan start goal)
    (hinv : AInv solid start st) (hglb : GLB start st)
    (hef : EntryF start goal st)
    (hg : st.gScore (geo start goal m) = some m)
    (hmax : MaxOnly start goal m st) :
    AInv solid start (expand solid goal (geo start goal m) st) ∧
    GLB start (expand solid goal (geo start goal m) st) ∧
    EntryF start goal (expand solid goal (geo start goal m) st) ∧
    OptInv start goal (expand solid goal (geo start goal m) st) := by
  have hadj : geo start goal (m + 1) ∈ neighbors (geo start goal m) :=
    geo_adj start goal m hm1
  obtain ⟨l1, l2, hsplit⟩ := List.append_of_mem hadj
  have hnd : (neighbors (geo start goal m)).Nodup := neighbors_nodup _
  rw [hsplit] at hnd
  have hnotl1 : geo start goal (m + 1) ∉ l1 := fun hmem =>
    (List.nodup_append.mp hnd).2.2 hmem (List.mem_cons_self _ _)
  have P1 := foldl_preserve_mem
    (fun s => AInv solid start s ∧
      s.gScore (geo start goal m) = some m ∧ GLB start s ∧
      EntryF start goal s ∧ MaxOnly start goal m s)
    (relaxOne solid goal (geo start goal m)) l1 st ⟨hinv, hg, hglb, hef, hmax⟩
    (fun s a ha hp => by
      have hmem : a ∈ neighbors (geo start goal m) := by
        rw [hsplit]
        exact List.mem_append_left _ ha
      have hane : a ≠ geo start goal (m + 1) := fun h => hnotl1 (h ▸ ha)
      exact ⟨(relaxOne_spec solid start goal _ s a hmem hp.1 m hp.2.1).1,
        (relaxOne_spec solid start goal _ s a hmem hp.1 m hp.2.1).2,
        relaxOne_glb solid start goal _ s a hmem m hp.2.1 hp.2.2.1,
        relaxOne_entryf solid start goal _ s a hp.2.2.2.1,
        relaxOne_maxonly solid start goal _ s a m m hp.2.1 hane
          hp.2.2.2.2⟩)
  have hopt2 := relaxOne_establish solid start goal (geo start goal m)
    (l1.foldl (relaxOne solid goal (geo start goal m)) st) m hD hm1
    (hopen _) P1.2.1 P1.2.2.1 P1.2.2.2.2
  have hainv2 := relaxOne_spec solid start goal (geo start goal m)
    (l1.foldl (relaxOne solid goal (geo start goal m)) st)
    (geo start goal (m + 1)) hadj P1.1 m P1.2.1
  have hglb2 := relaxOne_glb solid start goal (geo start goal m)
    (l1.foldl (relaxOne solid goal (geo start goal m)) st)
    (geo start goal (m + 1)) hadj m P1.2.1 P1.2.2.1
  have hef2 := relaxOne_entryf solid start goal (geo start goal m)
    (l1.foldl (relaxOne solid goal (geo start goal m)) st)
    (geo start goal (m + 1)) P1.2.2.2.1
  have P3 := foldl_preserve_mem
    (fun s => AInv solid start s ∧
      s.gScore (geo start goal m) = some m ∧ GLB start s ∧
      EntryF start goal s ∧ OptInv start goal s)
    (relaxOne solid goal (geo start goal m)) l2 _
    ⟨hainv2.1, hainv2.2, hglb2, hef2, hopt2⟩
    (fun s a ha hp => by
      have hmem : a ∈ neighbors (geo start goal m) := by
        rw [hsplit]
        exact List.mem_append_right _ (List.mem_cons_of_mem _ ha)
      exact ⟨(relaxOne_spec solid start goal _ s a hmem hp.1 m hp.2.1).1,
        (relaxOne_spec solid start goal _ s a hmem hp.1 m hp.2.1).2,
        relaxOne_glb solid start goal _ s a hmem m hp.2.1 hp.2.2.1,
        relaxOne_entryf solid start goal _ s a hp.2.2.2.1,
        relaxOne_opt solid start goal _ s a hmem m hp.2.1 hp.2.2.1
          hp.2.2.2.2⟩)
  have hexp : expand solid goal (geo start goal m) st =
      l2.foldl (relaxOne solid goal (geo start goal m))
        (relaxOne solid goal (geo start goal m)
          (l1.foldl (relaxOne solid goal (geo start goal m)) st)
          (geo start goal (m + 1))) := by
    unfold expand
    rw [hsplit, List.foldl_append, List.foldl_cons]
  rw [hexp]
  exact ⟨P3.1, P3.2.2.1, P3.2.2.2.1, P3.2.2.2.2⟩

theorem astarLoop_succ_none (solid : ℤ × ℤ → Bool) (goal : ℤ × ℤ)
    (fuel : ℕ) (st : AState) (hp : popMin st.openSet = none) :
    astarLoop solid goal (fuel + 1) st = ([], 0) := by
  show (match popMin st.openSet with
        | none => (([] : List (ℤ × ℤ)), 0)
        | some (e, rest) =>
          if e.2 = goal then
            (reconstruct st.cameFrom ((st.gScore e.2).getD 0 + 1) e.2 [], 1)
          else
            let st2 : AState :=
              { openSet := rest, cameFrom := st.cameFrom, gScore := st.gScore }
            let r := astarLoop solid goal fuel (expand solid goal e.2 st2)
            (r.1, r.2 + 1)) = ([], 0)
  rw [hp]

theorem astarLoop_succ_goal (solid : ℤ × ℤ → Bool) (goal : ℤ × ℤ)
    (fuel : ℕ) (st : AState) (e : ℕ × ℤ × ℤ) (rest : List (ℕ × ℤ × ℤ))
    (hp : popMin st.openSet = some (e, rest)) (hgoal : e.2 = goal) :
    astarLoop solid goal (fuel + 1) st =
      (reconstruct st.cameFrom ((st.gScore e.2).getD 0 + 1) e.2 [], 1) := by
  show (match popMin st.openSet with
        | none => (([] : List (ℤ × ℤ)), 0)
        | some (e, rest) =>
          if e.2 = goal then
            (reconstruct st.cameFrom ((st.gScore e.2).getD 0 + 1) e.2 [], 1)
          else
            let st2 : AState :=
              { openSet := rest, cameFrom := st.cameFrom, gScore := st.gScore }
            let r := astarLoop solid goal fuel (expand solid goal e.2 st2)
            (r.1, r.2 + 1)) = _
  rw [hp]
  dsimp only
  rw [if_pos hgoal]

theorem astarLoop_succ_step (solid : ℤ × ℤ → Bool) (goal : ℤ × ℤ)
    (fuel : ℕ) (st : AState) (e : ℕ × ℤ × ℤ) (rest : List (ℕ × ℤ × ℤ))
    (hp : popMin st.openSet = some (e, rest)) (hgoal : e.2 ≠ goal) :
    astarLoop solid goal (fuel + 1) st =
      ((astarLoop solid goal fuel (expand solid goal e.2
        { openSet := rest, cameFrom := st.cameFrom, gScore := st.gScore })).1,
       (astarLoop solid goal fuel (expand solid goal e.2
        { openSet := rest, cameFrom := st.cameFrom, gScore := st.gScore })).2 + 1) := by
  show (match popMin st.openSet with
        | none => (([] : List (ℤ × ℤ)), 0)
        | some (e, rest) =>
          if e.2 = goal then
            (reconstruct st.cameFrom ((st.gScore e.2).getD 0 + 1) e.2 [], 1)
          else
            let st2 : AState :=
              { openSet := rest, cameFrom := st.cameFrom, gScore := st.gScore }
            let r := astarLoop solid goal fuel (expand solid goal e.2 st2)
            (r.1, r.2 + 1)) = _
  rw [hp]
  dsimp only
  rw [if_neg hgoal]

theorem astarLoop_opt (solid : ℤ × ℤ → Bool) (start goal : ℤ × ℤ)
    (hopen : ∀ p : ℤ × ℤ, solid p = false)
    (hD : manhattan start goal < 10 ^ 9) :
    ∀ fuel st, AInv solid start st → GLB start st → EntryF start goal st →
      OptInv start goal st → (astarLoop solid goal fuel st).1 ≠ [] →
      (astarLoop solid goal fuel st).1.length = manhattan start goal + 1 := by
  intro fuel
  induction fuel with
  | zero =>
    intro st _ _ _ _ hne
    exact absurd rfl hne
  | succ fuel ih =>
    intro st hinv hglb hef hopt hne
    cases hp : popMin st.openSet with
    | none =>
      rw [astarLoop_succ_none solid goal fuel st hp] at hne
      exact absurd rfl hne
    | some er =>
      obtain ⟨e, rest⟩ := er
      obtain ⟨hmem, hrest, hmin⟩ := popMin_spec st.openSet e rest hp
      obtain ⟨g0, hg0⟩ := hinv.openDom e hmem
      by_cases hgoal : e.2 = goal
      · have hgD : g0 = manhattan start goal := by
          rcases hopt with hleft | ⟨m, hm, hgm, hmax, hent⟩
          · rw [hgoal, hleft] at hg0
            exact (Option.some.inj hg0).symm
          · have hfst : e.1 ≤ m + manhattan (geo start goal m) goal :=
              eLt_fst_le (hmin _ hent)
            have hgeoD : manhattan (geo start goal m) goal =
                manhattan start goal - m :=
              (geo_spec start goal m (by omega)).2
            rcases hef e hmem with hstart | ⟨gc, hgc, hb⟩
            · exfalso
              have hsg : manhattan start goal = 0 := by
                rw [← hgoal, hstart]
                exact manhattan_self start
              omega
            · have hglbg : manhattan start e.2 ≤ gc := hglb e.2 gc hgc
              rw [hgoal] at hglbg hb
              rw [manhattan_self] at hb
              rw [hg0] at hgc
              have hgceq : g0 = gc := Option.some.inj hgc
              omega
        obtain ⟨pref, heq, hh, hl, hch, ht, hlen⟩ :=
          reconstruct_spec solid start st hinv (g0 + 1) g0 e.2 hg0 (by omega) []
        rw [astarLoop_succ_goal solid goal fuel st e rest hp hgoal]
        dsimp only
        rw [hg0]
        simp only [Option.getD_some]
        rw [heq, List.append_nil]
        have hlow := chain_path_length pref hch start e.2 hh hl
        rw [hgoal] at hlow
        omega
      · rw [astarLoop_succ_step solid goal fuel st e rest hp hgoal] at hne ⊢
        dsimp only at hne ⊢
        have hinv2 : AInv solid start
            { openSet := rest, cameFrom := st.cameFrom, gScore := st.gScore } := by
          refine ⟨hinv.gStart, hinv.cfStart, hinv.cfProp, hinv.gDom, ?_⟩
          intro e2 he2
          refine hinv.openDom e2 ?_
          rw [hrest] at he2
          exact List.mem_of_mem_erase he2
        have hglb2 : GLB start
            { openSet := rest, cameFrom := st.cameFrom, gScore := st.gScore } :=
          hglb
        have hef2 : EntryF start goal
            { openSet := rest, cameFrom := st.cameFrom, gScore := st.gScore } := by
          intro e2 he2
          refine hef e2 ?_
          rw [hrest] at he2
          exact List.mem_of_mem_erase he2
        have hall : AInv solid start (expand solid goal e.2
              { openSet := rest, cameFrom := st.cameFrom, gScore := st.gScore }) ∧
            GLB start (expand solid goal e.2
              { openSet := rest, cameFrom := st.cameFrom, gScore := st.gScore }) ∧
            EntryF start goal (expand solid goal e.2
              { openSet := rest, cameFrom := st.cameFrom, gScore := st.gScore }) ∧
            OptInv start goal (expand solid goal e.2
              { openSet := rest, cameFrom := st.cameFrom, gScore := st.gScore }) := by
          rcases hopt with hleft | ⟨m, hm, hgm, hmax, hent⟩
          · exact expand_preserves_opt solid start goal e.2 _ g0 hinv2 hg0
              hglb2 hef2 (Or.inl hleft)
          · by_cases hin : (m + manhattan (geo start goal m) goal,
                geo start goal m) ∈ rest
            · exact expand_preserves_opt solid start goal e.2 _ g0 hinv2 hg0
                hglb2 hef2 (Or.inr ⟨m, hm, hgm, hmax, hin⟩)
            · have hee : e = (m + manhattan (geo start goal m) goal,
                  geo start goal m) := by
                by_contra hne2
                apply hin
                rw [hrest]
                exact (List.mem_erase_of_ne (fun h => hne2 h.symm)).mpr hent
              have hcur : e.2 = geo start goal m := by
                rw [hee]
              rw [hcur]
              exact expand_establish solid start goal _ m hD hopen (by omega)
                hinv2 hglb2 hef2 hgm hmax
        exact ih _ hall.1 hall.2.1 hall.2.2.1 hall.2.2.2 hne

theorem relaxOne_nogoal (solid : ℤ × ℤ → Bool) (start goal cur : ℤ × ℤ)
    (st : AState) (n : ℤ × ℤ)
    (hwalls : ∀ c, goal ∈ neighbors c → solid c = true)
    (hsg : goal ∉ neighbors start)
    (hcur : cur = start ∨ solid cur = false)
    (hn : n ∈ neighbors cur)
    (hinv : ∀ e ∈ st.openSet, e.2 ≠ goal ∧ (e.2 = start ∨ solid e.2 = false)) :
    ∀ e ∈ (relaxOne solid goal cur st n).openSet,
      e.2 ≠ goal ∧ (e.2 = start ∨ solid e.2 = false) := by
  rcases relaxOne_cases solid goal cur st n with he | ⟨hsol, _, he⟩ <;> rw [he]
  · exact hinv
  · intro e he2
    dsimp only at he2
    rcases List.mem_cons.mp he2 with hnew | hold
    · rw [hnew]
      dsimp only
      constructor
      · intro hng
        rw [hng] at hn
        rcases hcur with hcs | hcf
        · rw [hcs] at hn
          exact hsg hn
        · rw [hwalls cur hn] at hcf
          cases hcf
      · exact Or.inr hsol
    · exact hinv e hold

theorem astarLoop_enclosed (solid : ℤ × ℤ → Bool) (start goal : ℤ × ℤ)
    (hwalls : ∀ c, goal ∈ neighbors c → solid c = true)
    (hsg : goal ∉ neighbors start) :
    ∀ fuel st,
      (∀ e ∈ st.openSet, e.2 ≠ goal ∧ (e.2 = start ∨ solid e.2 = false)) →
      (astarLoop solid goal fuel st).1 = [] ∧
      (astarLoop solid goal fuel st).2 ≤ fuel := by
  intro fuel
  induction fuel with
  | zero =>
    intro st _
    exact ⟨rfl, le_refl 0⟩
  | succ fuel ih =>
    intro st hinv
    cases hp : popMin st.openSet with
    | none =>
      rw [astarLoop_succ_none solid goal fuel st hp]
      exact ⟨rfl, by omega⟩
    | some er =>
      obtain ⟨e, rest⟩ := er
      obtain ⟨hmem, hrest, _⟩ := popMin_spec st.openSet e rest hp
      have hgoal : e.2 ≠ goal := (hinv e hmem).1
      rw [astarLoop_succ_step solid goal fuel st e rest hp hgoal]
      have hinv2 : ∀ e2 ∈ (expand solid goal e.2
          { openSet := rest, cameFrom := st.cameFrom,
            gScore := st.gScore } : AState).openSet,
          e2.2 ≠ goal ∧ (e2.2 = start ∨ solid e2.2 = false) := by
        refine foldl_preserve_mem
          (fun s => ∀ e2 ∈ s.openSet,
            e2.2 ≠ goal ∧ (e2.2 = start ∨ solid e2.2 = false))
          (relaxOne solid goal e.2) (neighbors e.2) _ ?_ ?_
        · intro e2 he2
          refine hinv e2 ?_
          rw [hrest] at he2
          exact List.mem_of_mem_erase he2
        · intro s a ha hs
          exact relaxOne_nogoal solid start goal e.2 s a hwalls hsg
            (hinv e hmem).2 ha hs
      obtain ⟨h1, h2⟩ := ih _ hinv2
      exact ⟨h1, by omega⟩

/-- C8: on a grid with no solid tiles, every non-empty path that
`astar_path` returns has exactly Manhattan-distance many steps, i.e. its
node count is the Manhattan distance between start and goal plus one; and
when every tile adjacent to the goal is solid (a fully enclosed goal,
with the start elsewhere), `astar_path` returns the empty sequence after
popping at most `max_nodes` nodes. -/
theorem c8_astar_open_grid_and_enclosed :
    (∀ (start goal : ℤ × ℤ) (maxNodes : ℕ),
      manhattan start goal < 10 ^ 9 →
      astarPath (fun _ => false) start goal maxNodes ≠ [] →
      (astarPath (fun _ => false) start goal maxNodes).length =
        manhattan start goal + 1) ∧
    (∀ (solid : ℤ × ℤ → Bool) (start goal : ℤ × ℤ) (maxNodes : ℕ),
      start ≠ goal → (∀ c, goal ∈ neighbors c → solid c = true) →
      goal ∉ neighbors start →
      astarPath solid start goal maxNodes = [] ∧
      (astarRun solid start goal maxNodes).2 ≤ maxNodes) := by
  constructor
  · intro start goal maxNodes hD hne
    by_cases hsg : start = goal
    · unfold astarPath astarRun
      rw [if_pos hsg]
      rw [hsg, manhattan_self]
      rfl
    · have hD0 : 0 < manhattan start goal := by
        rcases Nat.eq_zero_or_pos (manhattan start goal) with h0 | h
        · exact absurd (manhattan_eq_zero h0) hsg
        · exact h
      unfold astarPath astarRun at hne ⊢
      rw [if_neg hsg] at hne ⊢
      cases maxNodes with
      | zero => exact absurd rfl hne
      | succ fuel =>
        have hp : popMin (astarInit start).openSet =
            some (((0 : ℕ), start), []) := by
          show popMin [((0 : ℕ), start)] = _
          show some (((0 : ℕ), start),
            [((0 : ℕ), start)].erase ((0 : ℕ), start)) = _
          rw [List.erase_cons_head]
        have hstgoal : ((0 : ℕ), start).2 ≠ goal := hsg
        rw [astarLoop_succ_step (fun _ => false) goal fuel (astarInit start)
          ((0 : ℕ), start) [] hp hstgoal] at hne ⊢
        dsimp only at hne ⊢
        have hinv2 : AInv (fun _ => false) start
            { openSet := [], cameFrom := (astarInit start).cameFrom,
              gScore := (astarInit start).gScore } := by
          refine ⟨(astarInit_inv (fun _ => false) start).gStart,
            (astarInit_inv (fun _ => false) start).cfStart,
            (astarInit_inv (fun _ => false) start).cfProp,
            (astarInit_inv (fun _ => false) start).gDom, ?_⟩
          intro e2 he2
          cases he2
        have hglb2 : GLB start
            { openSet := [], cameFrom := (astarInit start).cameFrom,
              gScore := (astarInit start).gScore } := by
          intro p k hk
          show manhattan start p ≤ k
          have hk2 : (if p = start then some 0 else none) = some k := hk
          by_cases hps : p = start
          · rw [if_pos hps] at hk2
            cases hk2
            rw [hps, manhattan_self]
          · rw [if_neg hps] at hk2
            cases hk2
        have hef2 : EntryF start goal
            { openSet := [], cameFrom := (astarInit start).cameFrom,
              gScore := (astarInit start).gScore } := by
          intro e2 he2
          cases he2
        have hgm0 : ({ openSet := [],
                       cameFrom := (astarInit start).cameFrom,
                       gScore := (astarInit start).gScore } : AState).gScore
            (geo start goal 0) = some 0 := by
          show (if start = start then some 0 else none) = some 0
          rw [if_pos rfl]
        have hmax0 : MaxOnly start goal 0
            { openSet := [], cameFrom := (astarInit start).cameFrom,
              gScore := (astarInit start).gScore } := by
          intro j hj hgj
          have hk2 : (if geo start goal j = start then some 0 else none) =
              some j := hgj
          by_cases hps : geo start goal j = start
          · rw [if_pos hps] at hk2
            cases hk2
            exact le_refl 0
          · rw [if_neg hps] at hk2
            cases hk2
        have hall := expand_establish (fun _ => false) start goal
          { openSet := [], cameFrom := (astarInit start).cameFrom,
            gScore := (astarInit start).gScore } 0 hD (fun _ => rfl)
          (by omega) hinv2 hglb2 hef2 hgm0 hmax0
        exact astarLoop_opt (fun _ => false) start goal (fun _ => rfl) hD
          fuel _ hall.1 hall.2.1 hall.2.2.1 hall.2.2.2 hne
  · intro solid start goal maxNodes hsg hwalls hnadj
    have hinv0 : ∀ e ∈ (astarInit start).openSet,
        e.2 ≠ goal ∧ (e.2 = start ∨ solid e.2 = false) := by
      intro e he
      simp only [astarInit, List.mem_singleton] at he
      rw [he]
      exact ⟨hsg, Or.inl rfl⟩
    have h := astarLoop_enclosed solid start goal hwalls hnadj maxNodes
      (astarInit start) hinv0
    unfold astarPath astarRun
    rw [if_neg hsg]
    exact h

/-- Closed instance of `c8_astar_open_grid_and_enclosed`: a concrete
open-grid run from (0,0) to (2,1) and a concrete enclosed origin with the
search started at (5,5). -/
theorem c8_astar_open_grid_and_enclosed_witness :
    ((astarPath (fun _ => false) (0, 0) (2, 1) 40).length =
      manhattan (0, 0) (2, 1) + 1) ∧
    (astarPath enclosedSolid (5, 5) (0, 0) 30 = [] ∧
      (astarRun enclosedSolid (5, 5) (0, 0) 30).2 ≤ 30) := by
  constructor
  · exact c8_astar_open_grid_and_enclosed.1 (0, 0) (2, 1) 40 (by decide)
      (by decide)
  · refine c8_astar_open_grid_and_enclosed.2 enclosedSolid (5, 5) (0, 0) 30
      (by decide) ?_ (by decide)
    intro c hc
    simp only [neighbors, List.mem_cons, List.mem_singleton,
      List.not_mem_nil, or_false, Prod.ext_iff] at hc
    rcases hc with ⟨h1, h2⟩ | ⟨h1, h2⟩ | ⟨h1, h2⟩ | ⟨h1, h2⟩ <;>
      (have hc1 : c = ((- 1 : ℤ), (0 : ℤ)) ∨ c = (1, 0) ∨ c = (0, -1) ∨
          c = (0, 1) := by
        rcases c with ⟨cx, cy⟩
        simp only [Prod.mk.injEq] at h1 h2 ⊢
        omega
       rcases hc1 with rfl | rfl | rfl | rfl <;> rfl)

/-- C7: if the active set holds exactly one event, that event carries
chain-tag `"defense"` and is unresolved, and every `random()` draw lies
below the chain probability 0.55 (the "forced to certainty" reading),
then `complete_event` on that event's id marks the original event
resolved — hence excluded from the unresolved active set kept by
`update` — and appends exactly one new event, whose chain-tag is
`"questline"`. -/
theorem c7_defense_chain_scenario (o : RngOracle) (es : EventSystem)
    (ev : WorldEvent) (p : Player) (w : World) (en : EMState)
    (hact : es.activeEvents = [ev]) (htag : ev.chainTag = "defense")
    (hres : ev.resolved = false) (hcert : ∀ k, o.rand k < 11 / 20) :
    ∃ follow : WorldEvent,
      (completeEvent o es ev.eid p w en).es.activeEvents
          = [{ ev with resolved := true }, follow]
      ∧ follow.chainTag = "questline"
      ∧ follow.etype = "quest"
      ∧ follow.resolved = false
      ∧ unresolvedActive (completeEvent o es ev.eid p w en).es
          = [follow] := by
  have hfind : List.findIdx?
      (fun e => e.eid == ev.eid && !e.resolved) [ev] = some 0 := by
    simp [hres]
  unfold completeEvent
  rw [hact, hfind]
  dsimp only [List.getD_cons_zero]
  rw [if_pos htag, if_pos (hcert _)]
  refine ⟨_, rfl, rfl, rfl, rfl, ?_⟩
  simp [unresolvedActive, newEvent]

/-- Closed instance of `c7_defense_chain_scenario` on the concrete
one-event system `esDefense` with the all-zero oracle. -/
theorem c7_defense_chain_scenario_witness :
    ∃ follow : WorldEvent,
      (completeEvent zeroRng esDefense evDefense.eid pZero wSmall
        emZero).es.activeEvents
          = [{ evDefense with resolved := true }, follow]
      ∧ follow.chainTag = "questline"
      ∧ follow.etype = "quest"
      ∧ follow.resolved = false
      ∧ unresolvedActive (completeEvent zeroRng esDefense evDefense.eid
          pZero wSmall emZero).es = [follow] :=
  c7_defense_chain_scenario zeroRng esDefense evDefense pZero wSmall
    emZero rfl rfl rfl (fun k => by norm_num [zeroRng])

/-- C6 counterexample: resolving the concrete difficulty-3 defense event
`evDefense` with its chain probability firing (the all-zero oracle draws
0 < 0.55) produces a follow-up whose chain-tag is `"questline"` but
whose difficulty is `max 1 3 = 3`, not strictly greater than the parent
difficulty 3 — the chained follow-up of a `defense` event is not
escalated. -/
theorem c6_chain_escalation_counterexample :
    (esDefense.activeEvents.getD 0 defaultEvent).chainTag = "defense"
    ∧ (esDefense.activeEvents.getD 0 defaultEvent).difficulty = 3
    ∧ ((completeEvent zeroRng esDefense 1 pZero wSmall
        emZero).es.activeEvents.getD 1 defaultEvent).chainTag = "questline"
    ∧ ((completeEvent zeroRng esDefense 1 pZero wSmall
        emZero).es.activeEvents.getD 1 defaultEvent).difficulty = 3
    ∧ ¬ ((esDefense.activeEvents.getD 0 defaultEvent).difficulty <
        ((completeEvent zeroRng esDefense 1 pZero wSmall
          emZero).es.activeEvents.getD 1 defaultEvent).difficulty) := by
  have hfind : List.findIdx?
      (fun e => e.eid == (1 : ℤ) && !e.resolved) [evDefense] = some 0 := by
    simp [evDefense]
  have hact : esDefense.activeEvents = [evDefense] := rfl
  unfold completeEvent
  rw [hact, hfind]
  dsimp only [List.getD_cons_zero]
  rw [if_pos (show evDefense.chainTag = "defense" from rfl),
    if_pos (show zeroRng.rand ((applyWorldImpact zeroRng evDefense
      esDefense.ctr wSmall emZero).2.1) < 11 / 20 by norm_num [zeroRng])]
  refine ⟨rfl, rfl, ?_, ?_, ?_⟩ <;> decide

/-- C6 (amended): when `complete_event` resolves the event at index `i`
and the per-tag chain probability fires, it appends exactly one
follow-up event: for chain-tag `"defense"` a quest tagged `"questline"`
of difficulty `max 1 d` (never strictly greater than the parent
difficulty `d` when `d ≥ 1`), for chain-tag `"questline"` an isekai
ambush tagged `"isekai"` of strictly escalated difficulty `d + 1`; an
event with any other chain-tag (in particular `"isekai"`) never chains
and nothing is appended. -/
theorem c6_chain_followup_difficulty (o : RngOracle) (es : EventSystem)
    (eventId : ℤ) (p : Player) (w : World) (en : EMState) (i : ℕ)
    (ev : WorldEvent)
    (hfind : es.activeEvents.findIdx?
      (fun e => e.eid == eventId && !e.resolved) = some i)
    (hev : es.activeEvents.getD i defaultEvent = ev) :
    (ev.chainTag = "defense" →
      o.rand (applyWorldImpact o ev es.ctr w en).2.1 < 11 / 20 →
      ∃ follow : WorldEvent,
        (completeEvent o es eventId p w en).es.activeEvents
            = es.activeEvents.set i { ev with resolved := true } ++ [follow]
        ∧ follow.chainTag = "questline" ∧ follow.etype = "quest"
        ∧ follow.difficulty = max 1 ev.difficulty)
    ∧ (ev.chainTag = "questline" →
      o.rand (applyWorldImpact o ev es.ctr w en).2.1 < 9 / 20 →
      ∃ follow : WorldEvent,
        (completeEvent o es eventId p w en).es.activeEvents
            = es.activeEvents.set i { ev with resolved := true } ++ [follow]
        ∧ follow.chainTag = "isekai" ∧ follow.etype = "isekai"
        ∧ follow.difficulty = ev.difficulty + 1)
    ∧ (ev.chainTag ≠ "defense" → ev.chainTag ≠ "questline" →
      (completeEvent o es eventId p w en).es.activeEvents
          = es.activeEvents.set i { ev with resolved := true }) := by
  unfold completeEvent
  rw [hfind]
  dsimp only
  rw [hev]
  refine ⟨?_, ?_, ?_⟩
  · intro htag hrand
    rw [if_pos htag, if_pos hrand]
    exact ⟨_, rfl, rfl, rfl, rfl⟩
  · intro htag hrand
    have hne : ¬ ev.chainTag = "defense" := by rw [htag]; decide
    rw [if_neg hne, if_pos htag, if_pos hrand]
    exact ⟨_, rfl, rfl, rfl, rfl⟩
  · intro h1 h2
    rw [if_neg h1, if_neg h2]

/-- Closed instance of `c6_chain_followup_difficulty`: the defense
branch on the concrete system `esDefense` with the all-zero oracle. -/
theorem c6_chain_followup_difficulty_witness :
    ∃ follow : WorldEvent,
      (completeEvent zeroRng esDefense 1 pZero wSmall
        emZero).es.activeEvents
          = esDefense.activeEvents.set 0 { evDefense with resolved := true }
            ++ [follow]
      ∧ follow.chainTag = "questline" ∧ follow.etype = "quest"
      ∧ follow.difficulty = max 1 evDefense.difficulty :=
  (c6_chain_followup_difficulty zeroRng esDefense 1 pZero wSmall emZero
    0 evDefense rfl rfl).1 rfl (by norm_num [zeroRng])

theorem completeEvent_none (o : RngOracle) (es : EventSystem)
    (eventId : ℤ) (p : Player) (w : World) (en : EMState)
    (hfind : es.activeEvents.findIdx?
      (fun e => e.eid == eventId && !e.resolved) = none) :
    completeEvent o es eventId p w en = ⟨es, p, w, en, none⟩ := by
  unfold completeEvent
  rw [hfind]

theorem completeEvent_found (o : RngOracle) (es : EventSystem)
    (eventId : ℤ) (p : Player) (w : World) (en : EMState) (i : ℕ)
    (hfind : es.activeEvents.findIdx?
      (fun e => e.eid == eventId && !e.resolved) = some i) :
    (∃ tail : List WorldEvent,
      (completeEvent o es eventId p w en).es.activeEvents
        = es.activeEvents.set i
            { es.activeEvents.getD i defaultEvent with resolved := true }
            ++ tail
      ∧ ∀ e ∈ tail, e.eid = es.nextEventId)
    ∧ (completeEvent o es eventId p w en).player
        = grantReward p (es.activeEvents.getD i defaultEvent).reward := by
  unfold completeEvent
  rw [hfind]
  dsimp only [newEvent]
  split_ifs with h1 h2 h3 h4
  · refine ⟨⟨_, rfl, ?_⟩, rfl⟩
    intro e he
    rw [List.mem_singleton] at he
    subst he
    rfl
  · exact ⟨⟨[], by simp, by simp⟩, rfl⟩
  · refine ⟨⟨_, rfl, ?_⟩, rfl⟩
    intro e he
    rw [List.mem_singleton] at he
    subst he
    rfl
  · exact ⟨⟨[], by simp, by simp⟩, rfl⟩
  · exact ⟨⟨[], by simp, by simp⟩, rfl⟩

/-- C4: `complete_event` is an idempotent no-op on absent or
already-resolved ids.  Under the event-system invariants that active
event ids are pairwise distinct and below `next_event_id`: a call whose
id matches no unresolved active event returns no message and leaves the
system, player, world and entity state unchanged; a second call with the
same id after any call is always such a no-op; and the first call grants
the found event's reward to the player exactly once. -/
theorem c4_complete_event_idempotent (o o2 : RngOracle)
    (es : EventSystem) (eventId : ℤ) (p : Player) (w : World)
    (en : EMState)
    (hnodup : (es.activeEvents.map WorldEvent.eid).Nodup)
    (hbound : ∀ e ∈ es.activeEvents, e.eid < es.nextEventId) :
    ((∀ e ∈ es.activeEvents, e.eid = eventId → e.resolved = true) →
      completeEvent o es eventId p w en = ⟨es, p, w, en, none⟩)
    ∧ (completeEvent o2 (completeEvent o es eventId p w en).es eventId
          (completeEvent o es eventId p w en).player
          (completeEvent o es eventId p w en).world
          (completeEvent o es eventId p w en).ents
        = ⟨(completeEvent o es eventId p w en).es,
           (completeEvent o es eventId p w en).player,
           (completeEvent o es eventId p w en).world,
           (completeEvent o es eventId p w en).ents, none⟩)
    ∧ (∀ i, es.activeEvents.findIdx?
          (fun e => e.eid == eventId && !e.resolved) = some i →
        (completeEvent o es eventId p w en).player
          = grantReward p (es.activeEvents.getD i defaultEvent).reward) := by
  refine ⟨?_, ?_, ?_⟩
  · intro habs
    apply completeEvent_none
    rw [List.findIdx?_eq_none_iff]
    intro e he
    by_cases h : e.eid = eventId
    · simp [habs e he h]
    · have hb : (e.eid == eventId) = false := by simpa using h
      simp [hb]
  · rcases hf : es.activeEvents.findIdx?
        (fun e => e.eid == eventId && !e.resolved) with _ | i
    · have h1 := completeEvent_none o es eventId p w en hf
      rw [h1]
      dsimp only
      exact completeEvent_none o2 es eventId p w en hf
    · obtain ⟨⟨tail, hact, htail⟩, hpl⟩ :=
        completeEvent_found o es eventId p w en i hf
      obtain ⟨hi, hpi, -⟩ := List.findIdx?_eq_some_iff_getElem.mp hf
      simp only [Bool.and_eq_true, beq_iff_eq, Bool.not_eq_true'] at hpi
      apply completeEvent_none
      rw [List.findIdx?_eq_none_iff]
      intro e he
      rw [hact] at he
      rcases List.mem_append.mp he with hmem | htl
      · rcases List.mem_iff_getElem.mp hmem with ⟨j, hj, hje⟩
        rw [List.length_set] at hj
        rw [List.getElem_set] at hje
        by_cases hij : i = j
        · rw [if_pos hij] at hje
          subst hje
          simp [List.getD_eq_getElem?_getD, List.getElem?_eq_getElem hi]
        · rw [if_neg hij] at hje
          subst hje
          by_cases heid : (es.activeEvents.get ⟨j, hj⟩).eid = eventId
          · simp only [List.get_eq_getElem] at heid
            exfalso
            apply hij
            have hmj : i < (es.activeEvents.map WorldEvent.eid).length := by
              simpa using hi
            have hmj2 : j < (es.activeEvents.map WorldEvent.eid).length := by
              simpa using hj
            have hmap : (es.activeEvents.map WorldEvent.eid).get ⟨i, hmj⟩
                = (es.activeEvents.map WorldEvent.eid).get ⟨j, hmj2⟩ := by
              simp only [List.get_eq_getElem, List.getElem_map]
              rw [hpi.1, heid]
            exact hnodup.getElem_inj_iff.mp hmap
          · simp only [List.get_eq_getElem] at heid
            have hb : (es.activeEvents[j].eid == eventId) = false := by
              simpa using heid
            simp [hb]
      · have heq := htail e htl
        have hmem : es.activeEvents[i] ∈ es.activeEvents :=
          List.getElem_mem hi
        have hlt : eventId < es.nextEventId := by
          have := hbound _ hmem
          rw [hpi.1] at this
          exact this
        have hne : e.eid ≠ eventId := by
          rw [heq]
          omega
        have hb : (e.eid == eventId) = false := by simpa using hne
        simp [hb]
  · intro i hf
    exact (completeEvent_found o es eventId p w en i hf).2

/-- Closed instance of `c4_complete_event_idempotent`: completing the
absent id 5 on the concrete one-event system `esDefense` is a no-op. -/
theorem c4_complete_event_idempotent_witness :
    completeEvent zeroRng esDefense 5 pZero wSmall emZero
      = ⟨esDefense, pZero, wSmall, emZero, none⟩ :=
  (c4_complete_event_idempotent zeroRng zeroRng esDefense 5 pZero wSmall
    emZero (by decide) (by decide)).1 (by decide)

theorem nearestIdx_alive (ents : List Ent) (x y maxDist : ℚ)
    (ff : Option String) (j : ℕ)
    (h : nearestIdx ents x y maxDist ff = some j) :
    0 < (ents.getD j defaultEnt).hp := by
  unfold nearestIdx at h
  refine foldl_preserve_mem
    (fun acc : ℚ × Option ℕ => ∀ c, acc.2 = some c →
      0 < (ents.getD c defaultEnt).hp)
    _ ents.enum (maxDist * maxDist, none) ?_ ?_ j h
  · intro c hc
    simp at hc
  · intro s a ha hs c hc
    dsimp only at hc
    split_ifs at hc with h1 h2 h3
    · exact hs c hc
    · exact hs c hc
    · dsimp only at hc
      rw [Option.some_inj] at hc
      subst hc
      have hget := List.mem_enum_iff_getElem?.mp ha
      rw [List.getD_eq_getElem?_getD, hget, Option.getD_some]
      omega
    · exact hs c hc

theorem entStep_dead_skip (o : EntOracle) (solid : ℤ × ℤ → Bool)
    (dt scale : ℚ) (st : TickState) (i : ℕ)
    (h : (st.ents.getD i defaultEnt).hp ≤ 0) :
    entStep o solid dt scale st i = st := by
  unfold entStep
  dsimp only
  rw [if_pos h]

theorem getD_ite1 {k : ℕ} (d : Ent) (a : List Ent) (C : Prop)
    [Decidable C] (l1 l2 : List Ent)
    (h1 : l1.getD k d = a.getD k d) (h2 : l2.getD k d = a.getD k d) :
    (if C then l1 else l2).getD k d = a.getD k d := by
  split_ifs <;> assumption

theorem getD_ite3 {k : ℕ} (d : Ent) (a : List Ent) (C1 C2 C3 : Prop)
    [Decidable C1] [Decidable C2] [Decidable C3] (l1 l2 l3 l4 : List Ent)
    (h1 : l1.getD k d = a.getD k d) (h2 : l2.getD k d = a.getD k d)
    (h3 : l3.getD k d = a.getD k d) (h4 : l4.getD k d = a.getD k d) :
    (if C1 then l1 else if C2 then l2 else if C3 then l3 else l4).getD k d
      = a.getD k d := by
  split_ifs <;> assumption

theorem entStep_preserves_dead (o : EntOracle) (solid : ℤ × ℤ → Bool)
    (dt scale : ℚ) (st : TickState) (i k : ℕ)
    (h : (st.ents.getD k defaultEnt).hp ≤ 0) :
    (entStep o solid dt scale st i).ents.getD k defaultEnt
      = st.ents.getD k defaultEnt := by
  by_cases h0 : (st.ents.getD i defaultEnt).hp ≤ 0
  · rw [entStep_dead_skip o solid dt scale st i h0]
  · have hik : i ≠ k := fun hik => h0 (hik ▸ h)
    have hgd : ∀ (l : List Ent) (c : Ent),
        (l.set i c).getD k defaultEnt = l.getD k defaultEnt := by
      intro l c
      rw [List.getD_eq_getElem?_getD, List.getD_eq_getElem?_getD,
        List.getElem?_set_ne hik]
    have hgd2 : ∀ (j : ℕ) (c : Ent), j ≠ k →
        (st.ents.set j c).getD k defaultEnt = st.ents.getD k defaultEnt := by
      intro j c hjk
      rw [List.getD_eq_getElem?_getD, List.getD_eq_getElem?_getD,
        List.getElem?_set_ne hjk]
    have halive : ∀ (x y m : ℚ) (ff : Option String) (j : ℕ),
        nearestIdx st.ents x y m ff = some j → j ≠ k := by
      intro x y m ff j hj hjk
      have := nearestIdx_alive st.ents x y m ff j hj
      rw [hjk] at this
      omega
    unfold entStep
    rw [if_neg h0]
    dsimp only
    rw [hgd]
    simp only [apply_ite
      (fun x : Ent × List Ent × Player × List LogEntry × ℕ × ℕ => x.2.1)]
    apply getD_ite3
    · rfl
    · apply getD_ite1
      · apply getD_ite1
        · rfl
        · rfl
      · rfl
    · split
      · next j heq =>
        simp only [apply_ite
          (fun x : Ent × List Ent × Player × List LogEntry × ℕ × ℕ =>
            x.2.1)]
        apply getD_ite1
        · apply hgd2
          rcases hm : nearestIdx st.ents _ _ 260 (some "monsters") with
              _ | j'
          · rw [hm] at heq
            exact halive _ _ _ _ _ heq
          · rw [hm] at heq
            rw [Option.some_inj] at heq
            subst heq
            exact halive _ _ _ _ _ hm
        · rfl
      · next heq =>
        simp only [apply_ite
          (fun x : Ent × List Ent × Player × List LogEntry × ℕ × ℕ =>
            x.2.1)]
        apply getD_ite1
        · rfl
        · rfl
    · rfl

theorem sweep_keep (o : EntOracle) (ents : List Ent) :
    ∀ acc : List Ent × List LogEntry × ℕ,
      (ents.foldl (fun acc ent =>
        if ent.hp > 0 then (acc.1 ++ [ent], acc.2.1, acc.2.2)
        else if ent.faction = "monsters" ∨ ent.faction = "boss" then
          let drops := ["wood", "ore", "core", "gold"]
          let drop := drops.getD (o.gchoose acc.2.2 % drops.length) ""
          (acc.1, acc.2.1 ++ [LogEntry.loot drop ent.x ent.y
            (if ent.faction = "monsters" then 14 else 60)], acc.2.2 + 1)
        else (acc.1, acc.2.1, acc.2.2)) acc).1
      = acc.1 ++ ents.filter (fun e => decide (e.hp > 0)) := by
  induction ents with
  | nil => intro acc; simp
  | cons e rest ih =>
    intro acc
    rw [List.foldl_cons]
    by_cases h1 : e.hp > 0
    · rw [if_pos h1, ih]
      simp [List.filter_cons, h1]
    · rw [if_neg h1]
      by_cases h2 : e.faction = "monsters" ∨ e.faction = "boss"
      · rw [if_pos h2, ih]
        simp [List.filter_cons, h1]
      · rw [if_neg h2, ih]
        simp [List.filter_cons, h1]

theorem sweep_loot (o : EntOracle) (ents : List Ent) :
    ∀ acc : List Ent × List LogEntry × ℕ,
      ((ents.foldl (fun acc ent =>
        if ent.hp > 0 then (acc.1 ++ [ent], acc.2.1, acc.2.2)
        else if ent.faction = "monsters" ∨ ent.faction = "boss" then
          let drops := ["wood", "ore", "core", "gold"]
          let drop := drops.getD (o.gchoose acc.2.2 % drops.length) ""
          (acc.1, acc.2.1 ++ [LogEntry.loot drop ent.x ent.y
            (if ent.faction = "monsters" then 14 else 60)], acc.2.2 + 1)
        else (acc.1, acc.2.1, acc.2.2)) acc).2.1).length
      = acc.2.1.length + (ents.filter (fun e => !decide (e.hp > 0)
          && decide (e.faction = "monsters" ∨ e.faction = "boss"))).length := by
  induction ents with
  | nil => intro acc; simp
  | cons e rest ih =>
    intro acc
    rw [List.foldl_cons]
    by_cases h1 : e.hp > 0
    · rw [if_pos h1, ih]
      simp [List.filter_cons, h1]
    · rw [if_neg h1]
      by_cases h2 : e.faction = "monsters" ∨ e.faction = "boss"
      · rw [if_pos h2]
        dsimp only
        rw [ih]
        have hpred : (!decide (e.hp > 0)
            && decide (e.faction = "monsters" ∨ e.faction = "boss"))
              = true := by
          simp [h1, h2]
        rw [List.filter_cons, if_pos hpred]
        simp only [List.length_append, List.length_cons, List.length_nil]
        omega
      · rw [if_neg h2, ih]
        simp [List.filter_cons, h1, h2]

theorem sweep_spec (o : EntOracle) (ents : List Ent)
    (logs : List LogEntry) (g : ℕ) :
    (sweep o ents logs g).1 = ents.filter (fun e => decide (e.hp > 0))
    ∧ (sweep o ents logs g).2.1.length = logs.length
        + (ents.filter (fun e => !decide (e.hp > 0)
            && decide (e.faction = "monsters"
              ∨ e.faction = "boss"))).length := by
  unfold sweep
  exact ⟨by simpa using sweep_keep o ents ([], logs, g),
    by simpa using sweep_loot o ents ([], logs, g)⟩

theorem spawnNearPlayer_pos (o : EntOracle) (px py : ℚ)
    (ents : List Ent) (r : ℕ) (h : ∀ e ∈ ents, 0 < e.hp) :
    ∀ e ∈ (spawnNearPlayer o px py ents r).1, 0 < e.hp := by
  unfold spawnNearPlayer
  split_ifs with h1 h2
  · exact h
  · intro e he
    dsimp only at he
    rcases List.mem_append.mp he with he1 | he2
    · exact h e he1
    · rw [List.mem_singleton] at he2
      subst he2
      dsimp only [mkEntity]
      split_ifs <;> decide
  · exact h

/-- C5: every live entity has hp > 0.  (i) After every
`EntityManager.update` the entity list holds only entities with positive
hp: the end-of-tick sweep keeps exactly the `hp > 0` entities and the
spawner only appends positive-hp templates.  (ii) An entity whose hp is
≤ 0 when the per-entity loop reaches it is skipped outright, and (iii) a
dead entity is never modified by any step of the loop — assist attacks
only target entities that `nearest_entity` reports alive — so an entity
dead at the start of `update` stays dead and untouched until the sweep
removes it.  (iv) The sweep keeps exactly the `hp > 0` entities and
emits exactly one loot log per dead hostile-faction
(`monsters`/`boss`) entity. -/
theorem c5_live_entity_invariant (o : EntOracle) (solid : ℤ × ℤ → Bool)
    (dt : ℚ) (p : Player) (em : EMState) :
    (∀ e ∈ (emUpdate o solid dt p em).1.entities, 0 < e.hp)
    ∧ (∀ (scale : ℚ) (st : TickState) (i : ℕ),
        (st.ents.getD i defaultEnt).hp ≤ 0 →
        entStep o solid dt scale st i = st)
    ∧ (∀ (scale : ℚ) (st : TickState) (i k : ℕ),
        (st.ents.getD k defaultEnt).hp ≤ 0 →
        (entStep o solid dt scale st i).ents.getD k defaultEnt
          = st.ents.getD k defaultEnt)
    ∧ (∀ k, (em.entities.getD k defaultEnt).hp ≤ 0 →
        (((List.range em.entities.length).foldl
            (entStep o solid dt (if p.timeSlow > 0 then 45 / 100 else 1))
            { ents := em.entities, player := p, logs := [],
              glCtr := em.glCtr, rngCtr := em.rngCtr }).ents.getD k
          defaultEnt) = em.entities.getD k defaultEnt)
    ∧ (∀ (ents : List Ent) (logs : List LogEntry) (g : ℕ),
        (sweep o ents logs g).1
            = ents.filter (fun e => decide (e.hp > 0))
        ∧ (sweep o ents logs g).2.1.length = logs.length
            + (ents.filter (fun e => !decide (e.hp > 0)
                && decide (e.faction = "monsters"
                  ∨ e.faction = "boss"))).length) := by
  refine ⟨?_,
    fun scale st i hd => entStep_dead_skip o solid dt scale st i hd,
    fun scale st i k hd => entStep_preserves_dead o solid dt scale st i k hd,
    ?_, fun ents logs g => sweep_spec o ents logs g⟩
  · unfold emUpdate
    dsimp only
    apply spawnNearPlayer_pos
    intro e he
    rw [(sweep_spec o _ _ _).1, List.mem_filter] at he
    exact of_decide_eq_true he.2
  · intro k hk
    refine foldl_preserve
      (fun st : TickState => st.ents.getD k defaultEnt
        = em.entities.getD k defaultEnt) _ _ _ rfl ?_
    intro st i hst
    rw [entStep_preserves_dead o solid dt _ st i k (by rw [hst]; exact hk),
      hst]

/-- Closed instance of `c5_live_entity_invariant`: the dead entity of
`stDead` is skipped outright by the per-entity step. -/
theorem c5_live_entity_invariant_witness :
    entStep oZeroEnt (fun _ => false) 1 1 stDead 0 = stDead :=
  (c5_live_entity_invariant oZeroEnt (fun _ => false) 1 pZero
    emZero).2.1 1 stDead 0 (by decide)

end RPG
